import Mathlib

/-!
# MediaElch actor roster (`src/data/Actor.cpp`)

A shallow embedding of the `Actors` class: the roster `m_actors` is a vector of
exclusively owned `Actor*`.  Every pointer of the vector is distinct (records
enter it only through `new Actor(...)` or by being carried over once in
`setActors`), so the vector is modelled by the list of the pointed-to records,
and a record's identity is its position in that list.

`QString` is modelled by `String`, `QByteArray` by a list of bytes.  The
case-insensitive comparison `QString::compare(_, Qt::CaseInsensitive) == 0`
belongs to Qt, not to this file: it is modelled by comparing the two strings
character by character after a case-folding map `fold`, which every definition
takes as a parameter.
-/

namespace MediaElch

abbrev QString := String

abbrev QByteArray := List UInt8

/-- Modelled from the spec: the record type `Actor`, whose declaration (`data/Actor.h`)
is not among the sources.  The fields are those `Actor.cpp` reads and writes and the
data model of the specification lists; as in the examples of the specification, a field
that is not given is the empty string, order 0, the empty image or false. -/
structure Actor where
  name : QString := ""
  role : QString := ""
  thumb : QString := ""
  id : QString := ""
  order : Int := 0
  image : QByteArray := []
  preserveImage : Bool := false
  imageHasChanged : Bool := false
  deriving DecidableEq, Repr

/-- The test `x.compare(y, Qt::CaseInsensitive) == 0`: equal after case folding. -/
def ciEqual (fold : Char → Char) (x y : QString) : Bool :=
  x.data.map fold == y.data.map fold

/-- Two's-complement wrap of a mathematical integer into the range of a 32-bit `int`. -/
def wrapInt32 (z : Int) : Int :=
  (z + 2147483648) % 4294967296 - 2147483648

/-- The search loop `for (int i = 0; i < size; ++i)` that stops with `idx = i` at the
first `i` for which `cond(i)` holds: the first index below `size` satisfying `cond`. -/
def firstIndex (size : Nat) (cond : Nat → Bool) : Option Nat :=
  (List.range size).find? cond

/-- Modelled from the spec: the class `Actors`, declared in `data/Actor.h`, which is not
among the sources.  Its state is the vector `m_actors`, the ordered sequence of
records the roster owns. -/
structure Actors where
  m_actors : List Actor := []
  deriving DecidableEq, Repr

/-- Lines 21-23 of `addActor`: an incoming order of 0 on a non-empty roster becomes
`m_actors.back()->order + 1`. -/
def appendOrder (m_actors : List Actor) (actor : Actor) : Actor :=
  match m_actors.getLast? with
  | some back =>
    if actor.order = 0 then { actor with order := wrapInt32 (back.order + 1) } else actor
  | none => actor

/-- The loop condition `m_actors[i]->id == actor.id` (line 31). -/
def idAt (m_actors : List Actor) (id : QString) (i : Nat) : Bool :=
  match m_actors[i]? with
  | some r => r.id == id
  | none => false

/-- The loop condition `m_actors[i]->name.compare(actor.name, Qt::CaseInsensitive) == 0`
(line 41). -/
def nameAt (fold : Char → Char) (m_actors : List Actor) (name : QString) (i : Nat) : Bool :=
  match m_actors[i]? with
  | some r => ciEqual fold r.name name
  | none => false

/-- Lines 29-37 of `addActor`: the identifier pass, skipped for an empty identifier. -/
def idPass (m_actors : List Actor) (actor : Actor) : Option Nat :=
  if actor.id.isEmpty then none else firstIndex m_actors.length (idAt m_actors actor.id)

/-- Lines 39-47 of `addActor`: the name pass. -/
def namePass (fold : Char → Char) (m_actors : List Actor) (actor : Actor) : Option Nat :=
  firstIndex m_actors.length (nameAt fold m_actors actor.name)

/-- Lines 26-47 of `addActor`: the index `idx` of `existing`, `none` for `nullptr`. -/
def findExisting (fold : Char → Char) (m_actors : List Actor) (actor : Actor) : Option Nat :=
  match idPass m_actors actor with
  | some idx => some idx
  | none => namePass fold m_actors actor

/-- The update of `existing` from the incoming record (lines 51-61 of `addActor`, and the
same statements at lines 139-148 of `setActors`). -/
def mergeInto (existing actor : Actor) : Actor :=
  let e : Actor :=
    { existing with
      name := actor.name
      role := actor.role
      thumb := actor.thumb
      order := if actor.order ≠ 0 then actor.order else existing.order
      preserveImage := existing.preserveImage || actor.preserveImage }
  if !actor.image.isEmpty && !e.preserveImage then
    { e with image := actor.image, imageHasChanged := true }
  else e

/-- The method `Actors::addActor` (lines 19-66). -/
def Actors.addActor (fold : Char → Char) (self : Actors) (actor : Actor) : Actors :=
  let actor := appendOrder self.m_actors actor
  match findExisting fold self.m_actors actor with
  | some idx =>
    match self.m_actors[idx]? with
    | some existing => { m_actors := self.m_actors.set idx (mergeInto existing actor) }
    | none => self
  | none => { m_actors := self.m_actors ++ [actor] }

/-- The method `Actors::hasActors` (lines 78-81). -/
def Actors.hasActors (self : Actors) : Bool :=
  !self.m_actors.isEmpty

/-- The loop condition `!used[i] && m_actors[i]->id == a.id` (line 119). -/
def unusedIdAt (m_actors : List Actor) (used : List Bool) (id : QString) (i : Nat) : Bool :=
  match used[i]?, m_actors[i]? with
  | some u, some r => !u && r.id == id
  | _, _ => false

/-- The loop condition
`!used[i] && m_actors[i]->name.compare(a.name, Qt::CaseInsensitive) == 0` (line 129). -/
def unusedNameAt (fold : Char → Char) (m_actors : List Actor) (used : List Bool)
    (name : QString) (i : Nat) : Bool :=
  match used[i]?, m_actors[i]? with
  | some u, some r => !u && ciEqual fold r.name name
  | _, _ => false

/-- Lines 117-125 of `setActors`: the identifier pass over the records not yet used,
skipped for an empty identifier. -/
def unusedIdPass (m_actors : List Actor) (used : List Bool) (a : Actor) : Option Nat :=
  if a.id.isEmpty then none else firstIndex m_actors.length (unusedIdAt m_actors used a.id)

/-- Lines 127-135 of `setActors`: the name pass over the records not yet used. -/
def unusedNamePass (fold : Char → Char) (m_actors : List Actor) (used : List Bool)
    (a : Actor) : Option Nat :=
  firstIndex m_actors.length (unusedNameAt fold m_actors used a.name)

/-- Lines 114-135 of `setActors`: the index `idx` of `existing` among the records not
yet used, `none` for `nullptr`. -/
def findUnused (fold : Char → Char) (m_actors : List Actor) (used : List Bool) (a : Actor) :
    Option Nat :=
  match unusedIdPass m_actors used a with
  | some idx => some idx
  | none => unusedNamePass fold m_actors used a

/-- The variables of the loop of `setActors`.  `newActors` is a vector of pointers: it is
modelled by the value each pointer has when it is pushed together with `origin`, which
records where the pointer points, `some idx` for the old record `m_actors[idx]` and
`none` for a record allocated by `new Actor(a)`.  The invariant `LoopInv` shows that
the value pushed is still the value of the pointed-to record when the loop ends. -/
structure SetState where
  m_actors : List Actor
  used : List Bool
  newActors : List Actor
  origin : List (Option Nat)
  deriving DecidableEq, Repr

/-- One iteration of the loop of `setActors` (lines 113-156). -/
def setActorsStep (fold : Char → Char) (st : SetState) (a : Actor) : SetState :=
  match findUnused fold st.m_actors st.used a with
  | some idx =>
    match st.m_actors[idx]? with
    | some existing =>
      let e := mergeInto existing a
      { m_actors := st.m_actors.set idx e
        used := st.used.set idx true
        newActors := st.newActors ++ [e]
        origin := st.origin ++ [some idx] }
    | none => st
  | none =>
    { st with newActors := st.newActors ++ [a], origin := st.origin ++ [none] }

/-- Lines 106-111 of `setActors`: the state before the loop. -/
def setActorsInit (self : Actors) : SetState :=
  { m_actors := self.m_actors
    used := List.replicate self.m_actors.length false
    newActors := []
    origin := [] }

/-- The state after the loop of `setActors` has run over the incoming list. -/
def setActorsLoop (fold : Char → Char) (self : Actors) (actors : List Actor) : SetState :=
  actors.foldl (setActorsStep fold) (setActorsInit self)

/-- The method `Actors::setActors` (lines 98-166): the roster becomes `newActors`. -/
def Actors.setActors (fold : Char → Char) (self : Actors) (actors : List Actor) : Actors :=
  { m_actors := (setActorsLoop fold self actors).newActors }

/-- For each record of the roster after `setActors`, the position of the old record it
is (`some idx`), or `none` when it was newly allocated. -/
def Actors.setActorsOrigin (fold : Char → Char) (self : Actors) (actors : List Actor) :
    List (Option Nat) :=
  (setActorsLoop fold self actors).origin

/-- Lines 159-163 of `setActors`: the positions of the old records that are deleted. -/
def Actors.setActorsDeleted (fold : Char → Char) (self : Actors) (actors : List Actor) :
    List Nat :=
  (List.range self.m_actors.length).filter
    (fun i => (setActorsLoop fold self actors).used[i]? == some false)

/-- The method `Actors::clearImages` (lines 83-90): the loop over the records assigns the
empty byte array to the image of each record whose `preserveImage` is false. -/
def Actors.clearImages (self : Actors) : Actors :=
  { m_actors := self.m_actors.map
      (fun actor => if !actor.preserveImage then { actor with image := [] } else actor) }

/-- The value of a pointer `Actor*`: the address of a record. -/
abbrev ActorPtr := Nat

/-- The loop condition of `std::find(m_actors.begin(), m_actors.end(), actor)`: the
pointer at position `i` equals `actor`. -/
def ptrAt (m_actors : List (ActorPtr × Actor)) (actor : ActorPtr) (i : Nat) : Bool :=
  match m_actors[i]? with
  | some e => e.1 == actor
  | none => false

/-- The method `Actors::removeActor` (lines 68-76).  It compares pointers, so here the
vector `m_actors` is the list of its pointers, each paired with the record it points to:
`std::find` returns the first position holding the pointer `actor`, and that position
is erased when there is one. -/
def removeActor (m_actors : List (ActorPtr × Actor)) (actor : ActorPtr) :
    List (ActorPtr × Actor) :=
  match firstIndex m_actors.length (ptrAt m_actors actor) with
  | some i => m_actors.eraseIdx i
  | none => m_actors

/-! ## Specification vocabulary for `setActors` -/

/-- The flags `used` as determined by the origins pushed so far: slot `k` is used when
some pushed pointer is the old record `k`. -/
def usedBy (size : Nat) (origin : List (Option Nat)) : List Bool :=
  (List.range size).map (fun k => origin.contains (some k))

/-- The loop invariant of `setActors`, for the old roster `R`, the incoming entries `L`
processed so far and the loop state `st`: the flags `used` mark the records carried
over so far, a record not yet carried over still has its old value, the origin of each
pushed pointer is what the search finds on the old roster among the records that the
earlier entries have not used, the record pushed is the entry or its merge into the
old record, and a carried-over pointer still points to the value that was pushed. -/
structure LoopInv (fold : Char → Char) (R L : List Actor) (st : SetState) : Prop where
  len_m : st.m_actors.length = R.length
  used_eq : st.used = usedBy R.length st.origin
  untouched : ∀ k : Nat, some k ∉ st.origin → st.m_actors[k]? = R[k]?
  len_o : st.origin.length = L.length
  len_n : st.newActors.length = L.length
  origin_spec : ∀ (i : Nat) (a : Actor), L[i]? = some a →
    st.origin[i]? = some (findUnused fold R (usedBy R.length (st.origin.take i)) a)
  new_spec : ∀ (i : Nat) (a : Actor), L[i]? = some a →
    (st.origin[i]? = some none ∧ st.newActors[i]? = some a) ∨
    (∃ (k : Nat) (r : Actor), st.origin[i]? = some (some k) ∧ R[k]? = some r ∧
      st.newActors[i]? = some (mergeInto r a))
  pointee : ∀ i k : Nat, st.origin[i]? = some (some k) →
    st.newActors[i]? = st.m_actors[k]? ∧ k < R.length

/-- The old record at position `k` is not yet matched when the entry at position `i` of
the incoming list is processed: no earlier entry has been merged into it. -/
def FreeBefore (origin : List (Option Nat)) (i k : Nat) : Prop :=
  ∀ i' : Nat, i' < i → origin[i']? ≠ some (some k)

/-! ## Example rosters and actors

The byte strings "A", "B" and "X" are `[65]`, `[66]` and `[88]`. -/

/-- The roster of the first example of the specification. -/
def aliceRoster : Actors :=
  { m_actors :=
      [{ id := "1", name := "Alice", order := 1, preserveImage := true, image := [65] }] }

/-- The incoming actor of the first example of the specification. -/
def aliceB : Actor := { id := "1", name := "Alice", image := [66] }

/-- The roster of the second example of the specification. -/
def bobRoster : Actors := { m_actors := [{ id := "", name := "Bob", order := 2, image := [] }] }

/-- The incoming actor of the second example of the specification. -/
def bobX : Actor := { id := "", name := "bob", image := [88] }

/-- A roster whose first record is named "Bob" and whose second record has
identifier "7". -/
def bobAliceRoster : Actors :=
  { m_actors := [{ id := "", name := "Bob", order := 1 }, { id := "7", name := "Alice", order := 2 }] }

/-- An incoming actor with identifier "7" and name "bob". -/
def bobSeven : Actor := { id := "7", name := "bob" }

/-- An incoming actor "Carl" with identifier "9" whose image "C" is protected. -/
def carlProtected : Actor := { id := "9", name := "Carl", image := [67], preserveImage := true }

/-- Two later incoming actors that match "Carl", by name and by identifier, and carry
the images "X" and "Y". -/
def carlLater : List Actor :=
  [{ id := "", name := "carl", image := [88] }, { id := "9", name := "CARL", order := 5, image := [89] }]

/-- A roster with the single record ("2", "Bob"). -/
def bobTwoRoster : Actors := { m_actors := [{ id := "2", name := "Bob", order := 1 }] }

/-- An incoming list without duplicates: ("", "Bob") followed by ("2", "Carl"). -/
def bobThenCarl : List Actor := [{ id := "", name := "Bob" }, { id := "2", name := "Carl" }]

/-- An incoming list whose first entry has the name of "Bob" in lower case and whose
second entry has a new identifier: ("", "bob") followed by ("3", "Carl"). -/
def bobThenCarlThree : List Actor := [{ id := "", name := "bob" }, { id := "3", name := "Carl" }]

/-- A roster in which exactly one record has identifier "5": ("5", "Alice") followed
by ("", "Bob"). -/
def aliceFiveRoster : Actors :=
  { m_actors := [{ id := "5", name := "Alice", order := 1 }, { id := "", name := "Bob", order := 2 }] }

/-- Two incoming entries with identifier "5", named "Alice" and "Bob". -/
def aliceBobFive : List Actor := [{ id := "5", name := "Alice" }, { id := "5", name := "Bob" }]

/-- An incoming actor "Carl" with no identifier and order 0. -/
def carlPlain : Actor := { name := "Carl" }

/-- The empty roster. -/
def emptyRoster : Actors := { m_actors := [] }

/-- A vector of three pointers whose first and last records have equal field values. -/
def twinPtrs : List (ActorPtr × Actor) :=
  [(100, { name := "Bob", order := 1 }), (200, { name := "Alice", order := 2 }), (300, { name := "Bob", order := 1 })]

/-- An incoming list with two entries named "Carl" and "carl". -/
def carlTwice : List Actor := [{ name := "Carl", role := "Hero" }, { name := "carl", role := "Villain" }]

/-- An incoming actor "bob" with order 7 and image "X". -/
def bobOrdered : Actor := { name := "bob", order := 7, image := [88] }

/-- An incoming list whose entries carry the identifiers of "Alice" and "Bob" under the
names "Bob" and "Carl": ("1", "Bob") followed by ("2", "Carl"). -/
def bobOneCarlTwo : List Actor := [{ id := "1", name := "Bob" }, { id := "2", name := "Carl" }]

/-! ## Uniqueness of identifiers and names in a roster -/

/-- No two records of the roster share a non-empty identifier. -/
def UniqueIds (m_actors : List Actor) : Prop :=
  m_actors.Pairwise (fun r s => ¬ (r.id ≠ "" ∧ r.id = s.id))

/-- No two records of the roster have case-insensitively equal names. -/
def UniqueNames (fold : Char → Char) (m_actors : List Actor) : Prop :=
  m_actors.Pairwise (fun r s => ciEqual fold r.name s.name = false)

instance (m_actors : List Actor) : Decidable (UniqueIds m_actors) :=
  inferInstanceAs
    (Decidable (m_actors.Pairwise (fun (r s : Actor) => ¬ (r.id ≠ "" ∧ r.id = s.id))))

instance (fold : Char → Char) (m_actors : List Actor) :
    Decidable (UniqueNames fold m_actors) :=
  inferInstanceAs
    (Decidable (m_actors.Pairwise (fun (r s : Actor) => ciEqual fold r.name s.name = false)))

/-- A roster with two records, identifiers "1" and "2", names "Alice" and "Bob". -/
def aliceBobRoster : Actors :=
  { m_actors := [{ id := "1", name := "Alice", order := 1 }, { id := "2", name := "Bob", order := 2 }] }

/-- An incoming actor with the identifier of "Alice" and the name "Bob". -/
def bobOne : Actor := { id := "1", name := "Bob" }

/-- An incoming actor with the identifier of "Alice" and the new name "Alicia". -/
def aliciaOne : Actor := { id := "1", name := "Alicia" }

/-! ## The search loops -/

theorem firstIndex_eq_some_iff {size : Nat} {cond : Nat → Bool} {k : Nat} :
    firstIndex size cond = some k ↔
      k < size ∧ cond k = true ∧ ∀ j, j < k → cond j = false := by
  unfold firstIndex
  rw [List.find?_range_eq_some]
  simp only [List.mem_range, Bool.not_eq_true']
  tauto

theorem firstIndex_eq_none_iff {size : Nat} {cond : Nat → Bool} :
    firstIndex size cond = none ↔ ∀ j, j < size → cond j = false := by
  unfold firstIndex
  rw [List.find?_range_eq_none]
  simp

theorem firstIndex_congr {size : Nat} {c d : Nat → Bool} (h : ∀ j, j < size → c j = d j) :
    firstIndex size c = firstIndex size d := by
  apply Option.ext
  intro k
  rw [Option.mem_def, Option.mem_def, firstIndex_eq_some_iff, firstIndex_eq_some_iff]
  constructor
  · rintro ⟨hk, hc, hj⟩
    exact ⟨hk, by rw [← h k hk]; exact hc, fun j hjk => by rw [← h j (by omega)]; exact hj j hjk⟩
  · rintro ⟨hk, hc, hj⟩
    exact ⟨hk, by rw [h k hk]; exact hc, fun j hjk => by rw [h j (by omega)]; exact hj j hjk⟩

theorem ciEqual_refl (fold : Char → Char) (x : QString) : ciEqual fold x x = true := by
  simp [ciEqual]

theorem ciEqual_comm (fold : Char → Char) (x y : QString) :
    ciEqual fold x y = ciEqual fold y x := by
  simp only [ciEqual]
  rw [Bool.eq_iff_iff]
  simp only [beq_iff_eq]
  exact eq_comm

theorem ciEqual_trans {fold : Char → Char} {x y z : QString}
    (h₁ : ciEqual fold x y = true) (h₂ : ciEqual fold y z = true) : ciEqual fold x z = true := by
  simp only [ciEqual, beq_iff_eq] at *
  rw [h₁, h₂]

/-! ## The two passes of `addActor` -/

theorem idAt_eq_true_iff {m_actors : List Actor} {id : QString} {i : Nat} :
    idAt m_actors id i = true ↔ ∃ r, m_actors[i]? = some r ∧ r.id = id := by
  unfold idAt
  cases h : m_actors[i]? <;> simp

theorem idAt_eq_false_iff {m_actors : List Actor} {id : QString} {i : Nat} :
    idAt m_actors id i = false ↔ ∀ r, m_actors[i]? = some r → r.id ≠ id := by
  unfold idAt
  cases h : m_actors[i]? <;> simp

theorem nameAt_eq_true_iff {fold : Char → Char} {m_actors : List Actor} {name : QString}
    {i : Nat} :
    nameAt fold m_actors name i = true ↔
      ∃ r, m_actors[i]? = some r ∧ ciEqual fold r.name name = true := by
  unfold nameAt
  cases h : m_actors[i]? <;> simp

theorem nameAt_eq_false_iff {fold : Char → Char} {m_actors : List Actor} {name : QString}
    {i : Nat} :
    nameAt fold m_actors name i = false ↔
      ∀ r, m_actors[i]? = some r → ciEqual fold r.name name = false := by
  unfold nameAt
  cases h : m_actors[i]? <;> simp

theorem isEmpty_eq_true_iff (x : QString) : x.isEmpty = true ↔ x = "" :=
  String.isEmpty_iff x

theorem isEmpty_eq_false_iff (x : QString) : x.isEmpty = false ↔ x ≠ "" := by
  rw [ne_eq, ← isEmpty_eq_true_iff, Bool.not_eq_true]

theorem idPass_eq_some_iff {m_actors : List Actor} {actor : Actor} {k : Nat} :
    idPass m_actors actor = some k ↔
      actor.id ≠ "" ∧ (∃ r, m_actors[k]? = some r ∧ r.id = actor.id) ∧
        ∀ j s, j < k → m_actors[j]? = some s → s.id ≠ actor.id := by
  unfold idPass
  by_cases he : actor.id = ""
  · simp [he, (isEmpty_eq_true_iff _).mpr rfl]
  · have he' : actor.id.isEmpty = false := (isEmpty_eq_false_iff _).mpr he
    simp only [he', Bool.false_eq_true, if_false, firstIndex_eq_some_iff, idAt_eq_true_iff,
      idAt_eq_false_iff, ne_eq, he, not_false_eq_true, true_and]
    constructor
    · rintro ⟨_, hr, hj⟩
      exact ⟨hr, fun j s hjk hs => hj j hjk s hs⟩
    · rintro ⟨⟨r, hr, hid⟩, hj⟩
      refine ⟨?_, ⟨r, hr, hid⟩, fun j hjk s hs => hj j s hjk hs⟩
      by_contra hk
      rw [List.getElem?_eq_none (by omega)] at hr
      cases hr

theorem idPass_eq_none_iff {m_actors : List Actor} {actor : Actor} :
    idPass m_actors actor = none ↔ actor.id = "" ∨ ∀ r ∈ m_actors, r.id ≠ actor.id := by
  unfold idPass
  by_cases he : actor.id = ""
  · simp [he, (isEmpty_eq_true_iff _).mpr rfl]
  · have he' : actor.id.isEmpty = false := (isEmpty_eq_false_iff _).mpr he
    simp only [he', Bool.false_eq_true, if_false, firstIndex_eq_none_iff, idAt_eq_false_iff,
      ne_eq, he, false_or]
    constructor
    · intro h r hr
      obtain ⟨i, hi, rfl⟩ := List.getElem_of_mem hr
      exact h i hi _ (List.getElem?_eq_getElem hi)
    · intro h j _ r hr
      exact h r (List.getElem?_mem hr)

theorem namePass_eq_some_iff {fold : Char → Char} {m_actors : List Actor} {actor : Actor}
    {k : Nat} :
    namePass fold m_actors actor = some k ↔
      (∃ r, m_actors[k]? = some r ∧ ciEqual fold r.name actor.name = true) ∧
        ∀ j s, j < k → m_actors[j]? = some s → ciEqual fold s.name actor.name = false := by
  unfold namePass
  simp only [firstIndex_eq_some_iff, nameAt_eq_true_iff, nameAt_eq_false_iff]
  constructor
  · rintro ⟨_, hr, hj⟩
    exact ⟨hr, fun j s hjk hs => hj j hjk s hs⟩
  · rintro ⟨⟨r, hr, hc⟩, hj⟩
    refine ⟨?_, ⟨r, hr, hc⟩, fun j hjk s hs => hj j s hjk hs⟩
    by_contra hk
    rw [List.getElem?_eq_none (by omega)] at hr
    cases hr

theorem namePass_eq_none_iff {fold : Char → Char} {m_actors : List Actor} {actor : Actor} :
    namePass fold m_actors actor = none ↔
      ∀ r ∈ m_actors, ciEqual fold r.name actor.name = false := by
  unfold namePass
  simp only [firstIndex_eq_none_iff, nameAt_eq_false_iff]
  constructor
  · intro h r hr
    obtain ⟨i, hi, rfl⟩ := List.getElem_of_mem hr
    exact h i hi _ (List.getElem?_eq_getElem hi)
  · intro h j _ r hr
    exact h r (List.getElem?_mem hr)

theorem findExisting_lt {fold : Char → Char} {m_actors : List Actor} {actor : Actor} {k : Nat}
    (h : findExisting fold m_actors actor = some k) : ∃ r, m_actors[k]? = some r := by
  unfold findExisting at h
  cases hi : idPass m_actors actor with
  | some i =>
    rw [hi] at h
    cases h
    obtain ⟨_, ⟨r, hr, _⟩, _⟩ := idPass_eq_some_iff.mp hi
    exact ⟨r, hr⟩
  | none =>
    rw [hi] at h
    obtain ⟨⟨r, hr, _⟩, _⟩ := namePass_eq_some_iff.mp h
    exact ⟨r, hr⟩

/-! ## The default order leaves every field but `order` alone -/

theorem appendOrder_fields (m_actors : List Actor) (actor : Actor) :
    (appendOrder m_actors actor).name = actor.name ∧
    (appendOrder m_actors actor).role = actor.role ∧
    (appendOrder m_actors actor).thumb = actor.thumb ∧
    (appendOrder m_actors actor).id = actor.id ∧
    (appendOrder m_actors actor).image = actor.image ∧
    (appendOrder m_actors actor).preserveImage = actor.preserveImage ∧
    (appendOrder m_actors actor).imageHasChanged = actor.imageHasChanged := by
  unfold appendOrder
  cases m_actors.getLast? with
  | none => simp
  | some back =>
    by_cases h : actor.order = 0 <;> simp [h]

theorem findExisting_appendOrder (fold : Char → Char) (m_actors l : List Actor) (actor : Actor) :
    findExisting fold m_actors (appendOrder l actor) = findExisting fold m_actors actor := by
  obtain ⟨hn, _, _, hi, _⟩ := appendOrder_fields l actor
  simp only [findExisting, idPass, namePass, hn, hi]

theorem addActor_of_some {fold : Char → Char} {self : Actors} {actor : Actor} {idx : Nat}
    {r : Actor} (h : findExisting fold self.m_actors actor = some idx)
    (hr : self.m_actors[idx]? = some r) :
    (self.addActor fold actor).m_actors =
      self.m_actors.set idx (mergeInto r (appendOrder self.m_actors actor)) := by
  unfold Actors.addActor
  simp only [findExisting_appendOrder, h, hr]

theorem addActor_of_none {fold : Char → Char} {self : Actors} {actor : Actor}
    (h : findExisting fold self.m_actors actor = none) :
    (self.addActor fold actor).m_actors =
      self.m_actors ++ [appendOrder self.m_actors actor] := by
  unfold Actors.addActor
  simp only [findExisting_appendOrder, h]

theorem mergeInto_fields (existing actor : Actor) :
    (mergeInto existing actor).name = actor.name ∧
    (mergeInto existing actor).role = actor.role ∧
    (mergeInto existing actor).thumb = actor.thumb ∧
    (mergeInto existing actor).id = existing.id ∧
    (mergeInto existing actor).order =
      (if actor.order ≠ 0 then actor.order else existing.order) ∧
    (mergeInto existing actor).preserveImage =
      (existing.preserveImage || actor.preserveImage) := by
  simp only [mergeInto]
  split_ifs <;> simp_all

theorem mergeInto_image (existing actor : Actor) :
    (actor.image ≠ [] ∧ (existing.preserveImage || actor.preserveImage) = false →
      (mergeInto existing actor).image = actor.image ∧
      (mergeInto existing actor).imageHasChanged = true) ∧
    (¬ (actor.image ≠ [] ∧ (existing.preserveImage || actor.preserveImage) = false) →
      (mergeInto existing actor).image = existing.image ∧
      (mergeInto existing actor).imageHasChanged = existing.imageHasChanged) := by
  unfold mergeInto
  cases hi : actor.image <;> cases hp : existing.preserveImage <;>
    cases hq : actor.preserveImage <;> simp [hi]

/-! ## The merge performed by `addActor` -/

/-- C1: when the incoming actor matches the record at position `idx` (found by the
identifier pass, otherwise by the name pass), the record's `preserveImage` after
`addActor` is the disjunction of the old and the incoming flag; its image is the
incoming one and `imageHasChanged` is true when the incoming image is non-empty and the
resulting `preserveImage` is false; in every other case image and `imageHasChanged` are
what they were. -/
theorem addActor_image_merge_rule (fold : Char → Char) (self : Actors) (a : Actor) (idx : Nat)
    (hmatch : findExisting fold self.m_actors a = some idx) :
    ∃ r r', self.m_actors[idx]? = some r ∧
      (self.addActor fold a).m_actors[idx]? = some r' ∧
      r'.preserveImage = (r.preserveImage || a.preserveImage) ∧
      (a.image ≠ [] ∧ r'.preserveImage = false →
        r'.image = a.image ∧ r'.imageHasChanged = true) ∧
      (¬ (a.image ≠ [] ∧ r'.preserveImage = false) →
        r'.image = r.image ∧ r'.imageHasChanged = r.imageHasChanged) := by
  obtain ⟨r, hr⟩ := findExisting_lt hmatch
  have hlt : idx < self.m_actors.length := by
    by_contra hk
    rw [List.getElem?_eq_none (by omega)] at hr
    cases hr
  obtain ⟨_, _, _, _, him, hpi, _⟩ := appendOrder_fields self.m_actors a
  obtain ⟨_, _, _, _, _, hp⟩ := mergeInto_fields r (appendOrder self.m_actors a)
  have himg := mergeInto_image r (appendOrder self.m_actors a)
  rw [him, hpi] at himg
  rw [hpi] at hp
  refine ⟨r, mergeInto r (appendOrder self.m_actors a), hr, ?_, hp, ?_, ?_⟩
  · rw [addActor_of_some hmatch hr, List.getElem?_set_self hlt]
  · rw [hp]; exact himg.1
  · rw [hp]; exact himg.2

/-- C1, the example of the specification: a record with `preserveImage` true and image
"A" keeps its image when an actor with the same identifier and image "B" is added. -/
theorem addActor_image_merge_rule_witness :
    findExisting Char.toLower aliceRoster.m_actors aliceB = some 0 ∧
      (∃ r r' : Actor, aliceRoster.m_actors[0]? = some r ∧
        (aliceRoster.addActor Char.toLower aliceB).m_actors[0]? = some r' ∧
        r'.preserveImage = (r.preserveImage || aliceB.preserveImage) ∧
        (aliceB.image ≠ [] ∧ r'.preserveImage = false →
          r'.image = aliceB.image ∧ r'.imageHasChanged = true) ∧
        (¬ (aliceB.image ≠ [] ∧ r'.preserveImage = false) →
          r'.image = r.image ∧ r'.imageHasChanged = r.imageHasChanged)) ∧
      (aliceRoster.addActor Char.toLower aliceB).m_actors =
        [{ id := "1", name := "Alice", order := 2, preserveImage := true, image := [65],
           imageHasChanged := false }] :=
  ⟨by decide, addActor_image_merge_rule Char.toLower aliceRoster aliceB 0 (by decide),
   by decide⟩

/-- C2: for an incoming actor with an empty identifier whose name equals, ignoring case,
the name of some record, `addActor` keeps the length of the roster, gives the first such
record the name, role and thumbnail of the incoming actor, and changes no other
record. -/
theorem addActor_name_fallback (fold : Char → Char) (self : Actors) (a : Actor)
    (hid : a.id = "")
    (hname : ∃ r ∈ self.m_actors, ciEqual fold r.name a.name = true) :
    (self.addActor fold a).m_actors.length = self.m_actors.length ∧
    ∃ (idx : Nat) (r r' : Actor), self.m_actors[idx]? = some r ∧ ciEqual fold r.name a.name = true ∧
      (∀ (j : Nat) (s : Actor), j < idx → self.m_actors[j]? = some s → ciEqual fold s.name a.name = false) ∧
      (self.addActor fold a).m_actors[idx]? = some r' ∧
      r'.name = a.name ∧ r'.role = a.role ∧ r'.thumb = a.thumb ∧
      ∀ j, j ≠ idx → (self.addActor fold a).m_actors[j]? = self.m_actors[j]? := by
  have hidp : idPass self.m_actors a = none := idPass_eq_none_iff.mpr (Or.inl hid)
  have hfe : findExisting fold self.m_actors a = namePass fold self.m_actors a := by
    simp only [findExisting, hidp]
  cases hnp : namePass fold self.m_actors a with
  | none =>
    obtain ⟨r, hr, hc⟩ := hname
    rw [namePass_eq_none_iff.mp hnp r hr] at hc
    cases hc
  | some idx =>
    obtain ⟨⟨r, hr, hc⟩, hfirst⟩ := namePass_eq_some_iff.mp hnp
    have hlt : idx < self.m_actors.length := by
      by_contra hk
      rw [List.getElem?_eq_none (by omega)] at hr
      cases hr
    rw [hnp] at hfe
    have hres := addActor_of_some hfe hr
    obtain ⟨hn, hro, hth, _⟩ := mergeInto_fields r (appendOrder self.m_actors a)
    obtain ⟨hn', hro', hth', _⟩ := appendOrder_fields self.m_actors a
    refine ⟨by rw [hres, List.length_set], idx, r, mergeInto r (appendOrder self.m_actors a),
      hr, hc, hfirst, ?_, hn.trans hn', hro.trans hro', hth.trans hth', ?_⟩
    · rw [hres, List.getElem?_set_self hlt]
    · intro j hj
      rw [hres, List.getElem?_set_ne (Ne.symm hj)]

/-- C2, the example of the specification: adding "bob" with image "X" to a roster that
holds "Bob" yields one record with image "X" and `imageHasChanged` true. -/
theorem addActor_name_fallback_witness :
    bobX.id = "" ∧
    (∃ r ∈ bobRoster.m_actors, ciEqual Char.toLower r.name bobX.name = true) ∧
    (bobRoster.addActor Char.toLower bobX).m_actors =
      [{ id := "", name := "bob", order := 3, image := [88], imageHasChanged := true }] ∧
    ((bobRoster.addActor Char.toLower bobX).m_actors.length = bobRoster.m_actors.length ∧
      ∃ (idx : Nat) (r r' : Actor), bobRoster.m_actors[idx]? = some r ∧
        ciEqual Char.toLower r.name bobX.name = true ∧
        (∀ (j : Nat) (s : Actor), j < idx → bobRoster.m_actors[j]? = some s →
          ciEqual Char.toLower s.name bobX.name = false) ∧
        (bobRoster.addActor Char.toLower bobX).m_actors[idx]? = some r' ∧
        r'.name = bobX.name ∧ r'.role = bobX.role ∧ r'.thumb = bobX.thumb ∧
        ∀ j, j ≠ idx →
          (bobRoster.addActor Char.toLower bobX).m_actors[j]? = bobRoster.m_actors[j]?) :=
  ⟨by decide, by decide, by decide,
   addActor_name_fallback Char.toLower bobRoster bobX (by decide) (by decide)⟩

/-- C3: for an incoming actor with a non-empty identifier carried by some record, the
record `addActor` updates is the first record with that identifier, whatever the names
of the other records; the roster keeps its length and every other record is unchanged.
The name pass runs exactly when the identifier pass found nothing, which is when the
incoming identifier is empty or no record carries it. -/
theorem addActor_identifier_precedence (fold : Char → Char) (self : Actors) (a : Actor) :
    (a.id ≠ "" → (∃ r ∈ self.m_actors, r.id = a.id) →
      ∃ (idx : Nat) (r : Actor), self.m_actors[idx]? = some r ∧ r.id = a.id ∧
        (∀ (j : Nat) (s : Actor), j < idx → self.m_actors[j]? = some s → s.id ≠ a.id) ∧
        findExisting fold self.m_actors a = some idx ∧
        (self.addActor fold a).m_actors.length = self.m_actors.length ∧
        (self.addActor fold a).m_actors[idx]? =
          some (mergeInto r (appendOrder self.m_actors a)) ∧
        ∀ j, j ≠ idx → (self.addActor fold a).m_actors[j]? = self.m_actors[j]?) ∧
    (idPass self.m_actors a = none ↔ a.id = "" ∨ ∀ r ∈ self.m_actors, r.id ≠ a.id) ∧
    (idPass self.m_actors a = none →
      findExisting fold self.m_actors a = namePass fold self.m_actors a) := by
  refine ⟨?_, idPass_eq_none_iff, fun h => by simp only [findExisting, h]⟩
  intro hne hex
  cases hip : idPass self.m_actors a with
  | none =>
    rcases idPass_eq_none_iff.mp hip with h | h
    · exact absurd h hne
    · obtain ⟨r, hr, hid⟩ := hex
      exact absurd hid (h r hr)
  | some idx =>
    obtain ⟨_, ⟨r, hr, hid⟩, hfirst⟩ := idPass_eq_some_iff.mp hip
    have hlt : idx < self.m_actors.length := by
      by_contra hk
      rw [List.getElem?_eq_none (by omega)] at hr
      cases hr
    have hfe : findExisting fold self.m_actors a = some idx := by
      simp only [findExisting, hip]
    have hres := addActor_of_some hfe hr
    refine ⟨idx, r, hr, hid, hfirst, hfe, by rw [hres, List.length_set], ?_, ?_⟩
    · rw [hres, List.getElem?_set_self hlt]
    · intro j hj
      rw [hres, List.getElem?_set_ne (Ne.symm hj)]

/-- C3 on a roster whose first record has the incoming name and whose second record has
the incoming identifier: the second record is the one updated. -/
theorem addActor_identifier_precedence_witness :
    bobSeven.id ≠ "" ∧ (∃ r ∈ bobAliceRoster.m_actors, r.id = bobSeven.id) ∧
    (bobAliceRoster.addActor Char.toLower bobSeven).m_actors =
      [{ id := "", name := "Bob", order := 1 }, { id := "7", name := "bob", order := 3 }] ∧
    ∃ (idx : Nat) (r : Actor), bobAliceRoster.m_actors[idx]? = some r ∧ r.id = bobSeven.id ∧
      (∀ (j : Nat) (s : Actor), j < idx → bobAliceRoster.m_actors[j]? = some s → s.id ≠ bobSeven.id) ∧
      findExisting Char.toLower bobAliceRoster.m_actors bobSeven = some idx ∧
      (bobAliceRoster.addActor Char.toLower bobSeven).m_actors.length =
        bobAliceRoster.m_actors.length ∧
      (bobAliceRoster.addActor Char.toLower bobSeven).m_actors[idx]? =
        some (mergeInto r (appendOrder bobAliceRoster.m_actors bobSeven)) ∧
      ∀ j, j ≠ idx →
        (bobAliceRoster.addActor Char.toLower bobSeven).m_actors[j]? =
          bobAliceRoster.m_actors[j]? :=
  ⟨by decide, by decide, by decide,
   (addActor_identifier_precedence Char.toLower bobAliceRoster bobSeven).1
     (by decide) (by decide)⟩

/-! ## A protected image is never overwritten by `addActor` -/

theorem addActor_keeps_protected (fold : Char → Char) (self : Actors) (b : Actor) (p : Nat)
    (r : Actor) (hr : self.m_actors[p]? = some r) (hp : r.preserveImage = true) :
    ∃ r' : Actor, (self.addActor fold b).m_actors[p]? = some r' ∧
      r'.preserveImage = true ∧ r'.image = r.image := by
  have hlt : p < self.m_actors.length := by
    by_contra hk
    rw [List.getElem?_eq_none (by omega)] at hr
    cases hr
  cases hfe : findExisting fold self.m_actors b with
  | none =>
    refine ⟨r, ?_, hp, rfl⟩
    rw [addActor_of_none hfe, List.getElem?_append_left hlt, hr]
  | some idx =>
    obtain ⟨e, he⟩ := findExisting_lt hfe
    rw [addActor_of_some hfe he]
    by_cases hpi : idx = p
    · subst hpi
      rw [hr] at he
      cases he
      refine ⟨_, List.getElem?_set_self hlt, ?_, ?_⟩
      · rw [(mergeInto_fields r _).2.2.2.2.2, hp, Bool.true_or]
      · refine ((mergeInto_image r _).2 ?_).1
        rw [hp, Bool.true_or]
        simp
    · exact ⟨r, by rw [List.getElem?_set_ne hpi, hr], hp, rfl⟩

theorem foldl_addActor_keeps_protected (fold : Char → Char) (bs : List Actor) :
    ∀ (self : Actors) (p : Nat) (r : Actor), self.m_actors[p]? = some r →
      r.preserveImage = true →
      ∃ r' : Actor, (bs.foldl (Actors.addActor fold) self).m_actors[p]? = some r' ∧
        r'.preserveImage = true ∧ r'.image = r.image := by
  induction bs with
  | nil =>
    intro self p r hr hp
    exact ⟨r, hr, hp, rfl⟩
  | cons b bs ih =>
    intro self p r hr hp
    obtain ⟨r₁, hr₁, hp₁, hi₁⟩ := addActor_keeps_protected fold self b p r hr hp
    obtain ⟨r₂, hr₂, hp₂, hi₂⟩ := ih (self.addActor fold b) p r₁ hr₁ hp₁
    exact ⟨r₂, hr₂, hp₂, hi₂.trans hi₁⟩

/-- C4: let `p` be the position at which `addActor` merged or appended an actor `a` with
`preserveImage` true (the matched position, or the old length when nothing matched).
After any further sequence of `addActor` calls the record at `p` still has
`preserveImage` true and the image it had right after `a` was added. -/
theorem preserved_image_survives (fold : Char → Char) (self : Actors) (a : Actor)
    (bs : List Actor) (hpres : a.preserveImage = true) :
    ∃ r₁ r₂ : Actor,
      (self.addActor fold a).m_actors[
        (findExisting fold self.m_actors a).getD self.m_actors.length]? = some r₁ ∧
      r₁.name = a.name ∧ r₁.role = a.role ∧ r₁.thumb = a.thumb ∧
      r₁.preserveImage = true ∧
      (bs.foldl (Actors.addActor fold) (self.addActor fold a)).m_actors[
        (findExisting fold self.m_actors a).getD self.m_actors.length]? = some r₂ ∧
      r₂.preserveImage = true ∧ r₂.image = r₁.image := by
  obtain ⟨hn', hro', hth', _, _, hpi', _⟩ := appendOrder_fields self.m_actors a
  have hfirst : ∃ r₁ : Actor,
      (self.addActor fold a).m_actors[
        (findExisting fold self.m_actors a).getD self.m_actors.length]? = some r₁ ∧
      r₁.name = a.name ∧ r₁.role = a.role ∧ r₁.thumb = a.thumb ∧
      r₁.preserveImage = true := by
    cases hfe : findExisting fold self.m_actors a with
    | none =>
      refine ⟨appendOrder self.m_actors a, ?_, hn', hro', hth', hpi'.trans hpres⟩
      rw [addActor_of_none hfe, Option.getD_none, List.getElem?_append_right (le_refl _)]
      simp
    | some idx =>
      obtain ⟨e, he⟩ := findExisting_lt hfe
      have hlt : idx < self.m_actors.length := by
        by_contra hk
        rw [List.getElem?_eq_none (by omega)] at he
        cases he
      obtain ⟨hn, hro, hth, _, _, hpi⟩ := mergeInto_fields e (appendOrder self.m_actors a)
      refine ⟨mergeInto e (appendOrder self.m_actors a), ?_, hn.trans hn', hro.trans hro',
        hth.trans hth', ?_⟩
      · rw [addActor_of_some hfe he, Option.getD_some, List.getElem?_set_self hlt]
      · rw [hpi, hpi', hpres, Bool.or_true]
  obtain ⟨r₁, hr₁, hn, hro, hth, hp⟩ := hfirst
  obtain ⟨r₂, hr₂, hp₂, hi₂⟩ :=
    foldl_addActor_keeps_protected fold bs (self.addActor fold a) _ r₁ hr₁ hp
  exact ⟨r₁, r₂, hr₁, hn, hro, hth, hp, hr₂, hp₂, hi₂⟩

/-- C4 on the roster holding "Bob": "Carl" is appended with a protected image "C", and
two later merges carrying the images "X" and "Y" leave that image in place. -/
theorem preserved_image_survives_witness :
    carlProtected.preserveImage = true ∧
    (carlLater.foldl (Actors.addActor Char.toLower)
        (bobRoster.addActor Char.toLower carlProtected)).m_actors =
      [{ id := "", name := "Bob", order := 2 },
       { id := "9", name := "CARL", order := 5, image := [67], preserveImage := true }] ∧
    ∃ r₁ r₂ : Actor,
      (bobRoster.addActor Char.toLower carlProtected).m_actors[
        (findExisting Char.toLower bobRoster.m_actors carlProtected).getD
          bobRoster.m_actors.length]? = some r₁ ∧
      r₁.name = carlProtected.name ∧ r₁.role = carlProtected.role ∧
      r₁.thumb = carlProtected.thumb ∧ r₁.preserveImage = true ∧
      (carlLater.foldl (Actors.addActor Char.toLower)
        (bobRoster.addActor Char.toLower carlProtected)).m_actors[
        (findExisting Char.toLower bobRoster.m_actors carlProtected).getD
          bobRoster.m_actors.length]? = some r₂ ∧
      r₂.preserveImage = true ∧ r₂.image = r₁.image :=
  ⟨by decide, by decide,
   preserved_image_survives Char.toLower bobRoster carlProtected carlLater (by decide)⟩

/-! ## Uniqueness, position by position -/

theorem getElem?_lt {R : List Actor} {i : Nat} {x : Actor} (h : R[i]? = some x) :
    i < R.length := by
  by_contra hk
  rw [List.getElem?_eq_none (by omega)] at h
  cases h

theorem uniqueIds_iff {R : List Actor} :
    UniqueIds R ↔ ∀ (i j : Nat) (r s : Actor), i ≠ j → R[i]? = some r → R[j]? = some s →
      r.id ≠ "" → r.id ≠ s.id := by
  unfold UniqueIds
  rw [List.pairwise_iff_getElem]
  constructor
  · intro h i j r s hij hr hs hne heq
    have hi := getElem?_lt hr
    have hj := getElem?_lt hs
    rw [List.getElem?_eq_getElem hi] at hr
    rw [List.getElem?_eq_getElem hj] at hs
    cases hr
    cases hs
    rcases Nat.lt_or_gt_of_ne hij with hlt | hgt
    · exact h i j hi hj hlt ⟨hne, heq⟩
    · exact h j i hj hi hgt ⟨by rw [← heq]; exact hne, heq.symm⟩
  · intro h i j hi hj hlt hc
    exact h i j _ _ (by omega) (List.getElem?_eq_getElem hi) (List.getElem?_eq_getElem hj)
      hc.1 hc.2

theorem uniqueNames_iff {fold : Char → Char} {R : List Actor} :
    UniqueNames fold R ↔ ∀ (i j : Nat) (r s : Actor), i ≠ j → R[i]? = some r →
      R[j]? = some s → ciEqual fold r.name s.name = false := by
  unfold UniqueNames
  rw [List.pairwise_iff_getElem]
  constructor
  · intro h i j r s hij hr hs
    have hi := getElem?_lt hr
    have hj := getElem?_lt hs
    rw [List.getElem?_eq_getElem hi] at hr
    rw [List.getElem?_eq_getElem hj] at hs
    cases hr
    cases hs
    rcases Nat.lt_or_gt_of_ne hij with hlt | hgt
    · exact h i j hi hj hlt
    · rw [ciEqual_comm]
      exact h j i hj hi hgt
  · intro h i j hi hj hlt
    exact h i j _ _ (by omega) (List.getElem?_eq_getElem hi) (List.getElem?_eq_getElem hj)

theorem getElem?_set_cases {R : List Actor} {idx i : Nat} {m x : Actor}
    (h : (R.set idx m)[i]? = some x) :
    (i = idx ∧ x = m) ∨ (i ≠ idx ∧ R[i]? = some x) := by
  by_cases hi : i = idx
  · subst hi
    have hlt : i < R.length := by
      have := getElem?_lt h
      rwa [List.length_set] at this
    rw [List.getElem?_set_self hlt] at h
    cases h
    exact Or.inl ⟨rfl, rfl⟩
  · rw [List.getElem?_set_ne (Ne.symm hi)] at h
    exact Or.inr ⟨hi, h⟩

/-- C5 as stated fails: on the roster [("1", "Alice"), ("2", "Bob")], which has unique
identifiers and names, adding the actor ("1", "Bob") renames the first record to "Bob"
and leaves two records with that name. -/
theorem addActor_uniqueness_counterexample :
    (UniqueIds aliceBobRoster.m_actors ∧ UniqueNames Char.toLower aliceBobRoster.m_actors) ∧
    (aliceBobRoster.addActor Char.toLower bobOne).m_actors =
      [{ id := "1", name := "Bob", order := 3 }, { id := "2", name := "Bob", order := 2 }] ∧
    ¬ (UniqueIds (aliceBobRoster.addActor Char.toLower bobOne).m_actors ∧
        UniqueNames Char.toLower (aliceBobRoster.addActor Char.toLower bobOne).m_actors) := by
  decide

/-- C5, amended: `addActor` keeps identifiers and names unique provided that, when the
incoming actor has a non-empty identifier carried by a record, no other record has a
name equal to the incoming name ignoring case. -/
theorem addActor_preserves_uniqueness (fold : Char → Char) (self : Actors) (a : Actor)
    (hids : UniqueIds self.m_actors) (hnames : UniqueNames fold self.m_actors)
    (hside : ∀ (i j : Nat) (r s : Actor), i ≠ j → self.m_actors[i]? = some r →
      self.m_actors[j]? = some s → a.id ≠ "" → r.id = a.id →
      ciEqual fold s.name a.name = false) :
    UniqueIds (self.addActor fold a).m_actors ∧
      UniqueNames fold (self.addActor fold a).m_actors := by
  obtain ⟨hn', _, _, hid', _⟩ := appendOrder_fields self.m_actors a
  cases hfe : findExisting fold self.m_actors a with
  | none =>
    have hip : idPass self.m_actors a = none := by
      cases h : idPass self.m_actors a with
      | none => rfl
      | some k => simp [findExisting, h] at hfe
    have hnp : namePass fold self.m_actors a = none := by
      simpa [findExisting, hip] using hfe
    rw [addActor_of_none hfe]
    constructor
    · unfold UniqueIds
      rw [List.pairwise_append]
      refine ⟨hids, List.pairwise_singleton _ _, ?_⟩
      intro r hr s hs
      rw [List.mem_singleton] at hs
      subst hs
      rw [hid']
      rintro ⟨hne, heq⟩
      rcases idPass_eq_none_iff.mp hip with h | h
      · exact hne (heq.trans h)
      · exact h r hr heq
    · unfold UniqueNames
      rw [List.pairwise_append]
      refine ⟨hnames, List.pairwise_singleton _ _, ?_⟩
      intro r hr s hs
      rw [List.mem_singleton] at hs
      subst hs
      rw [hn']
      exact namePass_eq_none_iff.mp hnp r hr
  | some idx =>
    obtain ⟨e, he⟩ := findExisting_lt hfe
    obtain ⟨hmn, _, _, hmi, _⟩ := mergeInto_fields e (appendOrder self.m_actors a)
    rw [hn'] at hmn
    rw [addActor_of_some hfe he]
    -- every other record has a name different from the incoming one
    have hother : ∀ (j : Nat) (s : Actor), j ≠ idx → self.m_actors[j]? = some s →
        ciEqual fold s.name a.name = false := by
      intro j s hj hs
      cases hip : idPass self.m_actors a with
      | some k =>
        have hk : k = idx := by simpa [findExisting, hip] using hfe
        subst hk
        obtain ⟨hne, ⟨r, hr, hrid⟩, _⟩ := idPass_eq_some_iff.mp hip
        exact hside k j r s (Ne.symm hj) hr hs hne hrid
      | none =>
        have hnp : namePass fold self.m_actors a = some idx := by
          simpa [findExisting, hip] using hfe
        obtain ⟨⟨r, hr, hc⟩, _⟩ := namePass_eq_some_iff.mp hnp
        have hes := uniqueNames_iff.mp hnames j idx s r hj hs hr
        cases hsa : ciEqual fold s.name a.name with
        | false => rfl
        | true =>
          rw [ciEqual_comm] at hc
          rw [ciEqual_trans hsa hc] at hes
          cases hes
    constructor
    · rw [uniqueIds_iff]
      intro i j x y hij hx hy
      have hx' : ∃ x₀, self.m_actors[i]? = some x₀ ∧ x₀.id = x.id := by
        rcases getElem?_set_cases hx with ⟨h1, h2⟩ | ⟨_, h2⟩
        · exact ⟨e, by rw [h1]; exact he, by rw [h2, hmi]⟩
        · exact ⟨x, h2, rfl⟩
      have hy' : ∃ y₀, self.m_actors[j]? = some y₀ ∧ y₀.id = y.id := by
        rcases getElem?_set_cases hy with ⟨h1, h2⟩ | ⟨_, h2⟩
        · exact ⟨e, by rw [h1]; exact he, by rw [h2, hmi]⟩
        · exact ⟨y, h2, rfl⟩
      obtain ⟨x₀, hx₀, hxi⟩ := hx'
      obtain ⟨y₀, hy₀, hyi⟩ := hy'
      rw [← hxi, ← hyi]
      exact uniqueIds_iff.mp hids i j x₀ y₀ hij hx₀ hy₀
    · rw [uniqueNames_iff]
      intro i j x y hij hx hy
      rcases getElem?_set_cases hx with ⟨h1, h2⟩ | ⟨h1, h2⟩
      · rcases getElem?_set_cases hy with ⟨h3, _⟩ | ⟨h3, h4⟩
        · exact absurd (h1.trans h3.symm) hij
        · rw [h2, hmn, ciEqual_comm]
          exact hother j y h3 h4
      · rcases getElem?_set_cases hy with ⟨_, h4⟩ | ⟨_, h4⟩
        · rw [h4, hmn]
          exact hother i x h1 h2
        · exact uniqueNames_iff.mp hnames i j x y hij h2 h4

/-- C5, amended, on the roster [("1", "Alice"), ("2", "Bob")] and the incoming actor
("1", "Alicia"), which is merged into the first record by identifier. -/
theorem addActor_preserves_uniqueness_witness :
    UniqueIds aliceBobRoster.m_actors ∧ UniqueNames Char.toLower aliceBobRoster.m_actors ∧
    (aliceBobRoster.addActor Char.toLower aliciaOne).m_actors =
      [{ id := "1", name := "Alicia", order := 3 }, { id := "2", name := "Bob", order := 2 }] ∧
    (UniqueIds (aliceBobRoster.addActor Char.toLower aliciaOne).m_actors ∧
      UniqueNames Char.toLower (aliceBobRoster.addActor Char.toLower aliciaOne).m_actors) :=
  ⟨by decide, by decide, by decide,
   addActor_preserves_uniqueness Char.toLower aliceBobRoster aliciaOne (by decide) (by decide)
     (fun _ _ _ s _ _ hs _ _ =>
       (by decide : ∀ x ∈ aliceBobRoster.m_actors,
          ciEqual Char.toLower x.name aliciaOne.name = false) s (List.getElem?_mem hs))⟩

/-! ## The two passes of `setActors` -/

theorem unusedIdAt_eq_true_iff {M : List Actor} {used : List Bool} {id : QString} {i : Nat} :
    unusedIdAt M used id i = true ↔
      ∃ r, used[i]? = some false ∧ M[i]? = some r ∧ r.id = id := by
  unfold unusedIdAt
  cases hu : used[i]? <;> cases hm : M[i]? <;> simp

theorem unusedIdAt_eq_false_iff {M : List Actor} {used : List Bool} {id : QString} {i : Nat} :
    unusedIdAt M used id i = false ↔
      ∀ r, used[i]? = some false → M[i]? = some r → r.id ≠ id := by
  unfold unusedIdAt
  cases hu : used[i]? <;> cases hm : M[i]? <;> simp

theorem unusedNameAt_eq_true_iff {fold : Char → Char} {M : List Actor} {used : List Bool}
    {name : QString} {i : Nat} :
    unusedNameAt fold M used name i = true ↔
      ∃ r, used[i]? = some false ∧ M[i]? = some r ∧ ciEqual fold r.name name = true := by
  unfold unusedNameAt
  cases hu : used[i]? <;> cases hm : M[i]? <;> simp

theorem unusedNameAt_eq_false_iff {fold : Char → Char} {M : List Actor} {used : List Bool}
    {name : QString} {i : Nat} :
    unusedNameAt fold M used name i = false ↔
      ∀ r, used[i]? = some false → M[i]? = some r → ciEqual fold r.name name = false := by
  unfold unusedNameAt
  cases hu : used[i]? <;> cases hm : M[i]? <;> simp

theorem unusedIdPass_eq_some_iff {M : List Actor} {used : List Bool} {a : Actor} {k : Nat} :
    unusedIdPass M used a = some k ↔
      a.id ≠ "" ∧ (∃ r, used[k]? = some false ∧ M[k]? = some r ∧ r.id = a.id) ∧
        ∀ (j : Nat) (s : Actor), j < k → used[j]? = some false → M[j]? = some s →
          s.id ≠ a.id := by
  unfold unusedIdPass
  by_cases he : a.id = ""
  · simp [he, (isEmpty_eq_true_iff _).mpr rfl]
  · have he' : a.id.isEmpty = false := (isEmpty_eq_false_iff _).mpr he
    simp only [he', Bool.false_eq_true, if_false, firstIndex_eq_some_iff,
      unusedIdAt_eq_true_iff, unusedIdAt_eq_false_iff, ne_eq, he, not_false_eq_true, true_and]
    constructor
    · rintro ⟨_, hr, hj⟩
      exact ⟨hr, fun j s hjk hu hs => hj j hjk s hu hs⟩
    · rintro ⟨⟨r, hu, hr, hid⟩, hj⟩
      exact ⟨getElem?_lt hr, ⟨r, hu, hr, hid⟩, fun j hjk s hu hs => hj j s hjk hu hs⟩

theorem unusedIdPass_eq_none_iff {M : List Actor} {used : List Bool} {a : Actor} :
    unusedIdPass M used a = none ↔
      a.id = "" ∨ ∀ (j : Nat) (s : Actor), used[j]? = some false → M[j]? = some s →
        s.id ≠ a.id := by
  unfold unusedIdPass
  by_cases he : a.id = ""
  · simp [he, (isEmpty_eq_true_iff _).mpr rfl]
  · have he' : a.id.isEmpty = false := (isEmpty_eq_false_iff _).mpr he
    simp only [he', Bool.false_eq_true, if_false, firstIndex_eq_none_iff,
      unusedIdAt_eq_false_iff, ne_eq, he, false_or]
    constructor
    · intro h j s hu hs
      exact h j (getElem?_lt hs) s hu hs
    · intro h j _ s hu hs
      exact h j s hu hs

theorem unusedNamePass_eq_some_iff {fold : Char → Char} {M : List Actor} {used : List Bool}
    {a : Actor} {k : Nat} :
    unusedNamePass fold M used a = some k ↔
      (∃ r, used[k]? = some false ∧ M[k]? = some r ∧ ciEqual fold r.name a.name = true) ∧
        ∀ (j : Nat) (s : Actor), j < k → used[j]? = some false → M[j]? = some s →
          ciEqual fold s.name a.name = false := by
  unfold unusedNamePass
  simp only [firstIndex_eq_some_iff, unusedNameAt_eq_true_iff, unusedNameAt_eq_false_iff]
  constructor
  · rintro ⟨_, hr, hj⟩
    exact ⟨hr, fun j s hjk hu hs => hj j hjk s hu hs⟩
  · rintro ⟨⟨r, hu, hr, hc⟩, hj⟩
    exact ⟨getElem?_lt hr, ⟨r, hu, hr, hc⟩, fun j hjk s hu hs => hj j s hjk hu hs⟩

theorem unusedNamePass_eq_none_iff {fold : Char → Char} {M : List Actor} {used : List Bool}
    {a : Actor} :
    unusedNamePass fold M used a = none ↔
      ∀ (j : Nat) (s : Actor), used[j]? = some false → M[j]? = some s →
        ciEqual fold s.name a.name = false := by
  unfold unusedNamePass
  simp only [firstIndex_eq_none_iff, unusedNameAt_eq_false_iff]
  constructor
  · intro h j s hu hs
    exact h j (getElem?_lt hs) s hu hs
  · intro h j _ s hu hs
    exact h j s hu hs

/-- What a successful search of `setActors` has found: an unused record that matches
the incoming actor by identifier or by name. -/
theorem findUnused_eq_some {fold : Char → Char} {M : List Actor} {used : List Bool}
    {a : Actor} {k : Nat} (h : findUnused fold M used a = some k) :
    ∃ r, used[k]? = some false ∧ M[k]? = some r ∧
      ((a.id ≠ "" ∧ r.id = a.id) ∨
        (unusedIdPass M used a = none ∧ ciEqual fold r.name a.name = true)) := by
  unfold findUnused at h
  cases hi : unusedIdPass M used a with
  | some i =>
    rw [hi] at h
    cases h
    obtain ⟨hne, ⟨r, hu, hr, hid⟩, _⟩ := unusedIdPass_eq_some_iff.mp hi
    exact ⟨r, hu, hr, Or.inl ⟨hne, hid⟩⟩
  | none =>
    rw [hi] at h
    obtain ⟨⟨r, hu, hr, hc⟩, _⟩ := unusedNamePass_eq_some_iff.mp h
    exact ⟨r, hu, hr, Or.inr ⟨rfl, hc⟩⟩

/-- What a failed search of `setActors` means: no unused record matches the incoming
actor, neither by identifier nor by name. -/
theorem findUnused_eq_none {fold : Char → Char} {M : List Actor} {used : List Bool}
    {a : Actor} (h : findUnused fold M used a = none) :
    ∀ (j : Nat) (s : Actor), used[j]? = some false → M[j]? = some s →
      (a.id = "" ∨ s.id ≠ a.id) ∧ ciEqual fold s.name a.name = false := by
  unfold findUnused at h
  cases hi : unusedIdPass M used a with
  | some i =>
    rw [hi] at h
    cases h
  | none =>
    rw [hi] at h
    intro j s hu hs
    refine ⟨?_, unusedNamePass_eq_none_iff.mp h j s hu hs⟩
    rcases unusedIdPass_eq_none_iff.mp hi with h0 | h0
    · exact Or.inl h0
    · exact Or.inr (h0 j s hu hs)

/-- The search of `setActors` reads only the records that are not yet used. -/
theorem findUnused_congr {fold : Char → Char} {M R : List Actor} {used : List Bool}
    {a : Actor} (hlen : M.length = R.length)
    (h : ∀ k : Nat, used[k]? = some false → M[k]? = R[k]?) :
    findUnused fold M used a = findUnused fold R used a := by
  have hid : ∀ j, j < M.length → unusedIdAt M used a.id j = unusedIdAt R used a.id j := by
    intro j _
    unfold unusedIdAt
    cases hu : used[j]? with
    | none => rfl
    | some u =>
      cases u with
      | true => cases M[j]? <;> cases R[j]? <;> rfl
      | false => rw [h j hu]
  have hname : ∀ j, j < M.length →
      unusedNameAt fold M used a.name j = unusedNameAt fold R used a.name j := by
    intro j _
    unfold unusedNameAt
    cases hu : used[j]? with
    | none => rfl
    | some u =>
      cases u with
      | true => cases M[j]? <;> cases R[j]? <;> rfl
      | false => rw [h j hu]
  unfold findUnused unusedIdPass unusedNamePass
  rw [← hlen, firstIndex_congr hid, firstIndex_congr hname]

theorem usedBy_getElem? (size : Nat) (origin : List (Option Nat)) (k : Nat) :
    (usedBy size origin)[k]? =
      if k < size then some (origin.contains (some k)) else none := by
  unfold usedBy
  rw [List.getElem?_map]
  by_cases hk : k < size
  · rw [List.getElem?_range hk, if_pos hk]
    rfl
  · rw [List.getElem?_eq_none (by rw [List.length_range]; omega), if_neg hk]
    rfl

theorem usedBy_eq_false_iff {size : Nat} {origin : List (Option Nat)} {k : Nat} :
    (usedBy size origin)[k]? = some false ↔ k < size ∧ some k ∉ origin := by
  rw [usedBy_getElem?]
  by_cases hk : k < size
  · simp [hk]
  · simp [hk]

/-! ## The loop invariant of `setActors` -/

theorem getElem?_snoc_cases {α : Type} {L : List α} {a x : α} {i : Nat}
    (h : (L ++ [a])[i]? = some x) :
    (i < L.length ∧ L[i]? = some x) ∨ (i = L.length ∧ x = a) := by
  by_cases hi : i < L.length
  · rw [List.getElem?_append_left hi] at h
    exact Or.inl ⟨hi, h⟩
  · have hlen := List.getElem?_eq_some.mp h
    obtain ⟨hlt, _⟩ := hlen
    rw [List.length_append, List.length_singleton] at hlt
    have hi' : i = L.length := by omega
    subst hi'
    rw [List.getElem?_concat_length] at h
    cases h
    exact Or.inr ⟨rfl, rfl⟩

theorem loopInv_init (fold : Char → Char) (R : List Actor) :
    LoopInv fold R [] (setActorsInit { m_actors := R }) where
  len_m := rfl
  used_eq := by
    apply List.ext_getElem?
    intro k
    simp only [setActorsInit]
    rw [usedBy_getElem?, List.getElem?_replicate]
    rfl
  untouched := fun _ _ => rfl
  len_o := rfl
  len_n := rfl
  origin_spec := fun i a h => by simp at h
  new_spec := fun i a h => by simp at h
  pointee := fun i k h => by simp [setActorsInit] at h

theorem loopInv_push {fold : Char → Char} {R L : List Actor} {st : SetState}
    (inv : LoopInv fold R L st) (a x : Actor) (o : Option Nat) (M : List Actor)
    (ho : o = findUnused fold R (usedBy R.length st.origin) a)
    (hM : M.length = R.length)
    (hMu : ∀ k : Nat, some k ∉ st.origin ++ [o] → M[k]? = R[k]?)
    (hMold : ∀ k : Nat, some k ∈ st.origin → M[k]? = st.m_actors[k]?)
    (hMnew : ∀ k : Nat, o = some k → M[k]? = some x ∧ k < R.length)
    (hx : (o = none ∧ x = a) ∨ (∃ (k : Nat) (r : Actor), o = some k ∧ R[k]? = some r ∧
      x = mergeInto r a)) :
    LoopInv fold R (L ++ [a])
      { m_actors := M
        used := usedBy R.length (st.origin ++ [o])
        newActors := st.newActors ++ [x]
        origin := st.origin ++ [o] } where
  len_m := hM
  used_eq := rfl
  untouched := hMu
  len_o := by simp [inv.len_o]
  len_n := by simp [inv.len_n]
  origin_spec := by
    intro i a' h
    rcases getElem?_snoc_cases h with ⟨hi, h'⟩ | ⟨hi, h'⟩
    · have hio : i < st.origin.length := by rw [inv.len_o]; exact hi
      simp only
      rw [List.getElem?_append_left hio, List.take_append_of_le_length (le_of_lt hio)]
      exact inv.origin_spec i a' h'
    · subst h'
      simp only
      rw [hi, ← inv.len_o, List.getElem?_concat_length, List.take_left, ho]
  new_spec := by
    intro i a' h
    rcases getElem?_snoc_cases h with ⟨hi, h'⟩ | ⟨hi, h'⟩
    · have hio : i < st.origin.length := by rw [inv.len_o]; exact hi
      have hin : i < st.newActors.length := by rw [inv.len_n]; exact hi
      simp only
      rw [List.getElem?_append_left hio, List.getElem?_append_left hin]
      exact inv.new_spec i a' h'
    · subst h'
      have h1 : (st.origin ++ [o])[i]? = some o := by
        rw [hi, ← inv.len_o, List.getElem?_concat_length]
      have h2 : (st.newActors ++ [x])[i]? = some x := by
        rw [hi, ← inv.len_n, List.getElem?_concat_length]
      simp only
      rw [h1, h2]
      rcases hx with ⟨h3, h4⟩ | ⟨k, r, h3, h4, h5⟩
      · exact Or.inl ⟨by rw [h3], by rw [h4]⟩
      · exact Or.inr ⟨k, r, by rw [h3], h4, by rw [h5]⟩
  pointee := by
    intro i k h
    simp only at h ⊢
    rcases getElem?_snoc_cases h with ⟨hi, h'⟩ | ⟨hi, h'⟩
    · have hin : i < st.newActors.length := by rw [inv.len_n, ← inv.len_o]; exact hi
      rw [List.getElem?_append_left hin, hMold k (List.getElem?_mem h')]
      exact inv.pointee i k h'
    · rw [hi, inv.len_o, ← inv.len_n, List.getElem?_concat_length]
      obtain ⟨h1, h2⟩ := hMnew k h'.symm
      exact ⟨h1.symm, h2⟩

theorem usedBy_snoc_none (size : Nat) (origin : List (Option Nat)) :
    usedBy size (origin ++ [none]) = usedBy size origin := by
  apply List.ext_getElem?
  intro k
  rw [usedBy_getElem?, usedBy_getElem?]
  simp

theorem usedBy_snoc_some (size : Nat) (origin : List (Option Nat)) (idx : Nat) :
    usedBy size (origin ++ [some idx]) = (usedBy size origin).set idx true := by
  apply List.ext_getElem?
  intro k
  rw [List.getElem?_set, usedBy_getElem?, usedBy_getElem?]
  have hlen : (usedBy size origin).length = size := by simp [usedBy]
  rw [hlen]
  by_cases hk : k < size
  · by_cases hik : idx = k
    · subst hik
      simp [hk]
    · have : ¬ k = idx := fun h => hik h.symm
      simp [hk, hik, this]
  · by_cases hik : idx = k
    · subst hik
      simp [hk]
    · simp [hk, hik]

theorem loopInv_step {fold : Char → Char} {R L : List Actor} {st : SetState}
    (inv : LoopInv fold R L st) (a : Actor) :
    LoopInv fold R (L ++ [a]) (setActorsStep fold st a) := by
  have hfu : findUnused fold st.m_actors st.used a =
      findUnused fold R (usedBy R.length st.origin) a := by
    rw [inv.used_eq]
    exact findUnused_congr inv.len_m
      (fun k hk => inv.untouched k (usedBy_eq_false_iff.mp hk).2)
  unfold setActorsStep
  rw [hfu]
  cases hf : findUnused fold R (usedBy R.length st.origin) a with
  | none =>
    have key := loopInv_push inv a a none st.m_actors hf.symm inv.len_m
      (fun k hk => inv.untouched k (fun hmem => hk (List.mem_append_left _ hmem)))
      (fun _ _ => rfl) (fun k hk => by cases hk)
      (Or.inl ⟨rfl, rfl⟩)
    rw [usedBy_snoc_none, ← inv.used_eq] at key
    exact key
  | some idx =>
    obtain ⟨r, hu, hr, _⟩ := findUnused_eq_some hf
    have hm : st.m_actors[idx]? = some r := by
      rw [inv.untouched idx (usedBy_eq_false_iff.mp hu).2]
      exact hr
    simp only [hm]
    have key := loopInv_push inv a (mergeInto r a) (some idx)
      (st.m_actors.set idx (mergeInto r a)) hf.symm
      (by rw [List.length_set]; exact inv.len_m)
      (fun k hk => by
        have hne : idx ≠ k := fun h => hk (by rw [h]; simp)
        rw [List.getElem?_set_ne hne]
        exact inv.untouched k (fun hmem => hk (List.mem_append_left _ hmem)))
      (fun k hk => by
        have hne : idx ≠ k := fun h => (usedBy_eq_false_iff.mp hu).2 (by rw [h]; exact hk)
        rw [List.getElem?_set_ne hne])
      (fun k hk => by
        cases hk
        have hlt : idx < st.m_actors.length := getElem?_lt hm
        exact ⟨List.getElem?_set_self hlt, getElem?_lt hr⟩)
      (Or.inr ⟨idx, r, rfl, hr, rfl⟩)
    rw [usedBy_snoc_some, ← inv.used_eq] at key
    exact key

theorem setActorsLoop_snoc (fold : Char → Char) (self : Actors) (L : List Actor) (a : Actor) :
    setActorsLoop fold self (L ++ [a]) = setActorsStep fold (setActorsLoop fold self L) a := by
  unfold setActorsLoop
  rw [List.foldl_append]
  rfl

/-- The invariant holds after the loop of `setActors` has run over the whole list. -/
theorem setActorsLoop_inv (fold : Char → Char) (self : Actors) (L : List Actor) :
    LoopInv fold self.m_actors L (setActorsLoop fold self L) := by
  induction L using List.reverseRecOn with
  | nil => exact loopInv_init fold self.m_actors
  | append_singleton L a ih =>
    rw [setActorsLoop_snoc]
    exact loopInv_step ih a

/-! ## Consequences of the loop invariant -/

theorem mem_take_iff {α : Type} {l : List α} {j : Nat} {x : α} :
    x ∈ l.take j ↔ ∃ i, i < j ∧ l[i]? = some x := by
  rw [List.mem_iff_getElem?]
  constructor
  · rintro ⟨i, hi⟩
    rw [List.getElem?_take] at hi
    by_cases hij : i < j
    · rw [if_pos hij] at hi
      exact ⟨i, hij, hi⟩
    · rw [if_neg hij] at hi
      cases hi
  · rintro ⟨i, hij, hi⟩
    exact ⟨i, by rw [List.getElem?_take, if_pos hij]; exact hi⟩

/-- A carried-over record was unused when its entry was processed and matches the entry
by identifier, or by name after the identifier pass found nothing. -/
theorem LoopInv.matched {fold : Char → Char} {R L : List Actor} {st : SetState}
    (inv : LoopInv fold R L st) {i k : Nat} {a : Actor} (ha : L[i]? = some a)
    (ho : st.origin[i]? = some (some k)) :
    ∃ r, R[k]? = some r ∧ some k ∉ st.origin.take i ∧
      ((a.id ≠ "" ∧ r.id = a.id) ∨
        (unusedIdPass R (usedBy R.length (st.origin.take i)) a = none ∧
          ciEqual fold r.name a.name = true)) := by
  have h := inv.origin_spec i a ha
  rw [ho] at h
  obtain ⟨r, hu, hr, hc⟩ := findUnused_eq_some (Option.some.inj h).symm
  exact ⟨r, hr, (usedBy_eq_false_iff.mp hu).2, hc⟩

/-- A new record was created because no record unused at that time matched its entry. -/
theorem LoopInv.unmatched {fold : Char → Char} {R L : List Actor} {st : SetState}
    (inv : LoopInv fold R L st) {i : Nat} {a : Actor} (ha : L[i]? = some a)
    (ho : st.origin[i]? = some none) :
    ∀ (k : Nat) (r : Actor), R[k]? = some r → some k ∉ st.origin.take i →
      (a.id = "" ∨ r.id ≠ a.id) ∧ ciEqual fold r.name a.name = false := by
  have h := inv.origin_spec i a ha
  rw [ho] at h
  intro k r hr hk
  exact findUnused_eq_none (Option.some.inj h).symm k r
    (usedBy_eq_false_iff.mpr ⟨getElem?_lt hr, hk⟩) hr

/-- No old record is carried over twice. -/
theorem LoopInv.origin_injective {fold : Char → Char} {R L : List Actor} {st : SetState}
    (inv : LoopInv fold R L st) {i j k : Nat} (hi : st.origin[i]? = some (some k))
    (hj : st.origin[j]? = some (some k)) : i = j := by
  have key : ∀ i j : Nat, i < j → st.origin[i]? = some (some k) →
      st.origin[j]? = some (some k) → False := by
    intro i j hij hi hj
    have hjlt : j < L.length := by
      rw [← inv.len_o]
      exact (List.getElem?_eq_some.mp hj).1
    obtain ⟨_, _, hnot, _⟩ := inv.matched (List.getElem?_eq_getElem hjlt) hj
    exact hnot (mem_take_iff.mpr ⟨i, hij, hi⟩)
  rcases Nat.lt_trichotomy i j with h | h | h
  · exact (key i j h hi hj).elim
  · exact h
  · exact (key j i h hj hi).elim

/-- Every record of `newActors` is the incoming entry at its position, either copied or
merged into the old record its origin names. -/
theorem LoopInv.entry {fold : Char → Char} {R L : List Actor} {st : SetState}
    (inv : LoopInv fold R L st) {i : Nat} {x : Actor} (hx : st.newActors[i]? = some x) :
    ∃ a, L[i]? = some a ∧
      ((st.origin[i]? = some none ∧ x = a) ∨
        (∃ (k : Nat) (r : Actor), st.origin[i]? = some (some k) ∧ R[k]? = some r ∧
          x = mergeInto r a)) := by
  have hlt : i < L.length := by
    rw [← inv.len_n]
    exact (List.getElem?_eq_some.mp hx).1
  refine ⟨L[i], List.getElem?_eq_getElem hlt, ?_⟩
  rcases inv.new_spec i L[i] (List.getElem?_eq_getElem hlt) with ⟨h1, h2⟩ | ⟨k, r, h1, h2, h3⟩
  · rw [hx] at h2
    exact Or.inl ⟨h1, Option.some.inj h2⟩
  · rw [hx] at h3
    exact Or.inr ⟨k, r, h1, h2, Option.some.inj h3⟩

theorem LoopInv.entry_name {fold : Char → Char} {R L : List Actor} {st : SetState}
    (inv : LoopInv fold R L st) {i : Nat} {x : Actor} (hx : st.newActors[i]? = some x) :
    ∃ a, L[i]? = some a ∧ x.name = a.name ∧ x.role = a.role ∧ x.thumb = a.thumb := by
  obtain ⟨a, ha, h⟩ := inv.entry hx
  refine ⟨a, ha, ?_⟩
  rcases h with ⟨_, h⟩ | ⟨k, r, _, _, h⟩
  · rw [h]
    exact ⟨rfl, rfl, rfl⟩
  · rw [h]
    obtain ⟨h1, h2, h3, _⟩ := mergeInto_fields r a
    exact ⟨h1, h2, h3⟩

/-- C6 as stated fails: on the roster [("2", "Bob")] the duplicate-free list
[("", "Bob"), ("2", "Carl")] merges its first entry into the record by name, then
creates a new record for the second entry, which carries the same identifier "2". -/
theorem setActors_uniqueness_counterexample :
    (UniqueIds bobTwoRoster.m_actors ∧ UniqueNames Char.toLower bobTwoRoster.m_actors) ∧
    (UniqueIds bobThenCarl ∧ UniqueNames Char.toLower bobThenCarl) ∧
    (bobTwoRoster.setActors Char.toLower bobThenCarl).m_actors =
      [{ id := "2", name := "Bob", order := 1 }, { id := "2", name := "Carl" }] ∧
    ¬ (UniqueIds (bobTwoRoster.setActors Char.toLower bobThenCarl).m_actors ∧
        UniqueNames Char.toLower (bobTwoRoster.setActors Char.toLower bobThenCarl).m_actors) := by
  decide

/-- C6, amended: for a roster and an incoming list that each have unique identifiers and
names, the roster after `setActors` has unique names, and it has unique identifiers
exactly when no entry that becomes a new record carries the non-empty identifier of an
old record that is carried over, that is, into which another entry was merged. -/
theorem setActors_preserves_uniqueness (fold : Char → Char) (self : Actors) (L : List Actor)
    (hids : UniqueIds self.m_actors) (_hnames : UniqueNames fold self.m_actors)
    (hLids : UniqueIds L) (hLnames : UniqueNames fold L) :
    UniqueNames fold (self.setActors fold L).m_actors ∧
    (UniqueIds (self.setActors fold L).m_actors ↔
      ∀ (i j k : Nat) (r e : Actor),
        (self.setActorsOrigin fold L)[i]? = some (some k) → self.m_actors[k]? = some r →
        (self.setActorsOrigin fold L)[j]? = some none → L[j]? = some e →
        r.id ≠ "" → r.id ≠ e.id) := by
  have inv := setActorsLoop_inv fold self L
  show UniqueNames fold (setActorsLoop fold self L).newActors ∧
    (UniqueIds (setActorsLoop fold self L).newActors ↔
      ∀ (i j k : Nat) (r e : Actor),
        (setActorsLoop fold self L).origin[i]? = some (some k) → self.m_actors[k]? = some r →
        (setActorsLoop fold self L).origin[j]? = some none → L[j]? = some e →
        r.id ≠ "" → r.id ≠ e.id)
  refine ⟨?_, ?_, ?_⟩
  · rw [uniqueNames_iff]
    intro i j x y hij hx hy
    obtain ⟨a, ha, hxa, _⟩ := inv.entry_name hx
    obtain ⟨b, hb, hyb, _⟩ := inv.entry_name hy
    rw [hxa, hyb]
    exact uniqueNames_iff.mp hLnames i j a b hij ha hb
  · -- unique identifiers exclude a new record with the identifier of a carried-over one
    intro hres i j k r e hoi hr hoj he hne heq
    have hilt : i < L.length := by
      rw [← inv.len_o]
      exact (List.getElem?_eq_some.mp hoi).1
    have hij : i ≠ j := by
      intro h
      rw [h, hoj] at hoi
      cases hoi
    have hxi : (setActorsLoop fold self L).newActors[i]? = some (mergeInto r L[i]) := by
      rcases inv.new_spec i L[i] (List.getElem?_eq_getElem hilt) with
        ⟨h1, _⟩ | ⟨k', r', h1, hr', hx⟩
      · rw [hoi] at h1
        cases h1
      · rw [hoi] at h1
        cases h1
        rw [hr] at hr'
        cases hr'
        exact hx
    have hxj : (setActorsLoop fold self L).newActors[j]? = some e := by
      rcases inv.new_spec j e he with ⟨_, hx⟩ | ⟨k', r', h1, _, _⟩
      · exact hx
      · rw [hoj] at h1
        cases h1
    have hmid : (mergeInto r L[i]).id = r.id := (mergeInto_fields r L[i]).2.2.2.1
    exact uniqueIds_iff.mp hres i j _ e hij hxi hxj (by rw [hmid]; exact hne)
      (by rw [hmid]; exact heq)
  · -- two carried-over records differ by the old roster, two new ones by the list
    intro hclash
    rw [uniqueIds_iff]
    intro i j x y hij hx hy hne heq
    obtain ⟨a, ha, hxa⟩ := inv.entry hx
    obtain ⟨b, hb, hyb⟩ := inv.entry hy
    rcases hxa with ⟨hoi, hxa⟩ | ⟨k, r, hoi, hr, hxa⟩
    · rcases hyb with ⟨hoj, hyb⟩ | ⟨k', r', hoj, hr', hyb⟩
      · rw [hxa] at hne heq
        rw [hyb] at heq
        exact uniqueIds_iff.mp hLids i j a b hij ha hb hne heq
      · rw [hxa] at hne heq
        rw [hyb, (mergeInto_fields r' b).2.2.2.1] at heq
        exact hclash j i k' r' a hoj hr' hoi ha (by rw [← heq]; exact hne) heq.symm
    · rw [hxa, (mergeInto_fields r a).2.2.2.1] at hne heq
      rcases hyb with ⟨hoj, hyb⟩ | ⟨k', r', hoj, hr', hyb⟩
      · rw [hyb] at heq
        exact hclash i j k r b hoi hr hoj hb hne heq
      · rw [hyb, (mergeInto_fields r' b).2.2.2.1] at heq
        have hkk : k ≠ k' := by
          intro h
          rw [← h] at hoj
          exact hij (inv.origin_injective hoi hoj)
        exact uniqueIds_iff.mp hids k k' r r' hkk hr hr' hne heq

/-- C6, amended, on the roster [("1", "Alice"), ("2", "Bob")] and the list
[("1", "Bob"), ("2", "Carl")]: both entries are merged by identifier, no new record is
created, and the identifiers and names stay unique.  On the roster [("2", "Bob")] and
the list [("", "bob"), ("3", "Carl")] the new record carries an identifier that the
carried-over record does not have, and the identifiers stay unique as well. -/
theorem setActors_preserves_uniqueness_witness :
    UniqueIds aliceBobRoster.m_actors ∧ UniqueNames Char.toLower aliceBobRoster.m_actors ∧
    UniqueIds bobOneCarlTwo ∧ UniqueNames Char.toLower bobOneCarlTwo ∧
    (aliceBobRoster.setActors Char.toLower bobOneCarlTwo).m_actors =
      [{ id := "1", name := "Bob", order := 1 }, { id := "2", name := "Carl", order := 2 }] ∧
    UniqueNames Char.toLower (aliceBobRoster.setActors Char.toLower bobOneCarlTwo).m_actors ∧
    UniqueIds (aliceBobRoster.setActors Char.toLower bobOneCarlTwo).m_actors ∧
    bobTwoRoster.setActorsOrigin Char.toLower bobThenCarlThree = [some 0, none] ∧
    UniqueIds (bobTwoRoster.setActors Char.toLower bobThenCarlThree).m_actors :=
  ⟨by decide, by decide, by decide, by decide, by decide,
   (setActors_preserves_uniqueness Char.toLower aliceBobRoster bobOneCarlTwo
     (by decide) (by decide) (by decide) (by decide)).1,
   (setActors_preserves_uniqueness Char.toLower aliceBobRoster bobOneCarlTwo
     (by decide) (by decide) (by decide) (by decide)).2.mpr
     (fun i j k r e _ _ hoj _ _ => by
       have ho : aliceBobRoster.setActorsOrigin Char.toLower bobOneCarlTwo =
           [some 0, some 1] := by decide
       rw [ho] at hoj
       match j, hoj with
       | 0, hoj => simp at hoj
       | 1, hoj => simp at hoj
       | n + 2, hoj => simp at hoj),
   by decide,
   (setActors_preserves_uniqueness Char.toLower bobTwoRoster bobThenCarlThree
     (by decide) (by decide) (by decide) (by decide)).2.mpr
     (fun _ _ _ r e _ hr _ he _ =>
       (by decide : ∀ x ∈ bobTwoRoster.m_actors, ∀ y ∈ bobThenCarlThree, x.id ≠ y.id)
         r (List.getElem?_mem hr) e (List.getElem?_mem he))⟩

/-! ## The roster after `setActors` -/

theorem mem_setActorsDeleted {fold : Char → Char} {self : Actors} {L : List Actor} {k : Nat} :
    k ∈ self.setActorsDeleted fold L ↔
      k < self.m_actors.length ∧ some k ∉ self.setActorsOrigin fold L := by
  have inv := setActorsLoop_inv fold self L
  unfold Actors.setActorsDeleted Actors.setActorsOrigin
  rw [List.mem_filter, List.mem_range, inv.used_eq, beq_iff_eq, usedBy_eq_false_iff]
  tauto

/-- C7: after `setActors` the roster has as many records as the incoming list, and the
record at each position has the name, role and thumbnail of the entry at that position.
Every record carried over from the old roster was matched, by identifier or by name, by
the entry at its position, and every old record that is not carried over is deleted. -/
theorem setActors_follows_incoming (fold : Char → Char) (self : Actors) (L : List Actor) :
    (self.setActors fold L).m_actors.length = L.length ∧
    (self.setActorsOrigin fold L).length = L.length ∧
    (∀ (i : Nat) (a : Actor), L[i]? = some a →
      ∃ x : Actor, (self.setActors fold L).m_actors[i]? = some x ∧
        x.name = a.name ∧ x.role = a.role ∧ x.thumb = a.thumb) ∧
    (∀ i k : Nat, (self.setActorsOrigin fold L)[i]? = some (some k) →
      ∃ r a : Actor, self.m_actors[k]? = some r ∧ L[i]? = some a ∧
        ((a.id ≠ "" ∧ r.id = a.id) ∨ ciEqual fold r.name a.name = true)) ∧
    (∀ k : Nat, k ∈ self.setActorsDeleted fold L ↔
      k < self.m_actors.length ∧ some k ∉ self.setActorsOrigin fold L) := by
  have inv := setActorsLoop_inv fold self L
  refine ⟨inv.len_n, inv.len_o, ?_, ?_, fun k => mem_setActorsDeleted⟩
  · intro i a ha
    have hlt : i < (setActorsLoop fold self L).newActors.length := by
      rw [inv.len_n]
      exact (List.getElem?_eq_some.mp ha).1
    obtain ⟨a', ha', h⟩ := inv.entry_name (List.getElem?_eq_getElem hlt)
    rw [ha] at ha'
    cases ha'
    exact ⟨_, List.getElem?_eq_getElem hlt, h⟩
  · intro i k ho
    have hlt : i < L.length := by
      rw [← inv.len_o]
      exact (List.getElem?_eq_some.mp ho).1
    obtain ⟨r, hr, _, hc⟩ := inv.matched (List.getElem?_eq_getElem hlt) ho
    refine ⟨r, L[i], hr, List.getElem?_eq_getElem hlt, ?_⟩
    rcases hc with h | ⟨_, h⟩
    · exact Or.inl h
    · exact Or.inr h

/-- C7 on the roster [("1", "Alice"), ("2", "Bob")] and the list
[("", "bob"), ("3", "Carl")]: "Bob" is carried over to the first position, "Carl" is
new, and "Alice", matched by no entry, is deleted. -/
theorem setActors_follows_incoming_witness :
    (aliceBobRoster.setActors Char.toLower bobThenCarlThree).m_actors =
      [{ id := "2", name := "bob", order := 2 }, { id := "3", name := "Carl" }] ∧
    aliceBobRoster.setActorsOrigin Char.toLower bobThenCarlThree = [some 1, none] ∧
    aliceBobRoster.setActorsDeleted Char.toLower bobThenCarlThree = [0] ∧
    (aliceBobRoster.setActors Char.toLower bobThenCarlThree).m_actors.length =
      bobThenCarlThree.length ∧
    (∀ (i : Nat) (a : Actor), bobThenCarlThree[i]? = some a →
      ∃ x : Actor,
        (aliceBobRoster.setActors Char.toLower bobThenCarlThree).m_actors[i]? = some x ∧
        x.name = a.name ∧ x.role = a.role ∧ x.thumb = a.thumb) :=
  ⟨by decide, by decide, by decide,
   (setActors_follows_incoming Char.toLower aliceBobRoster bobThenCarlThree).1,
   (setActors_follows_incoming Char.toLower aliceBobRoster bobThenCarlThree).2.2.1⟩

/-- C8: the entry at position `i` of the incoming list is matched by the search of
`setActors` among the records that no earlier entry has used.  When it is matched to
the old record `r`, the record at position `i` afterwards has the identifier of `r`, the
name, role and thumbnail of the entry, the order of the entry when that is non-zero and
of `r` otherwise, the disjunction of the two `preserveImage` flags, and the image of the
entry with `imageHasChanged` true when that image is non-empty and the resulting
`preserveImage` is false, the image and `imageHasChanged` of `r` otherwise; a record with
`preserveImage` true keeps its image.  When it is matched to no record, the record at
position `i` is a copy of the entry. -/
theorem setActors_merge_rule (fold : Char → Char) (self : Actors) (L : List Actor) (i : Nat)
    (a : Actor) (ha : L[i]? = some a) :
    (self.setActorsOrigin fold L)[i]? =
      some (findUnused fold self.m_actors
        (usedBy self.m_actors.length ((self.setActorsOrigin fold L).take i)) a) ∧
    (∀ k : Nat, (self.setActorsOrigin fold L)[i]? = some (some k) →
      ∃ r x : Actor, self.m_actors[k]? = some r ∧
        (self.setActors fold L).m_actors[i]? = some x ∧
        x.id = r.id ∧ x.name = a.name ∧ x.role = a.role ∧ x.thumb = a.thumb ∧
        x.order = (if a.order ≠ 0 then a.order else r.order) ∧
        x.preserveImage = (r.preserveImage || a.preserveImage) ∧
        (a.image ≠ [] ∧ x.preserveImage = false →
          x.image = a.image ∧ x.imageHasChanged = true) ∧
        (¬ (a.image ≠ [] ∧ x.preserveImage = false) →
          x.image = r.image ∧ x.imageHasChanged = r.imageHasChanged) ∧
        (r.preserveImage = true → x.image = r.image)) ∧
    ((self.setActorsOrigin fold L)[i]? = some none →
      (self.setActors fold L).m_actors[i]? = some a) := by
  have inv := setActorsLoop_inv fold self L
  refine ⟨inv.origin_spec i a ha, ?_, ?_⟩
  · intro k ho
    rcases inv.new_spec i a ha with ⟨h1, _⟩ | ⟨k', r, h1, hr, hx⟩
    · have h1' : (self.setActorsOrigin fold L)[i]? = some none := h1
      rw [ho] at h1'
      cases h1'
    · have h1' : (self.setActorsOrigin fold L)[i]? = some (some k') := h1
      rw [ho] at h1'
      cases h1'
      obtain ⟨hn, hro, hth, hid, hord, hp⟩ := mergeInto_fields r a
      have himg := mergeInto_image r a
      refine ⟨r, mergeInto r a, hr, hx, hid, hn, hro, hth, hord, hp, ?_, ?_, ?_⟩
      · rw [hp]
        exact himg.1
      · rw [hp]
        exact himg.2
      · intro hpres
        refine (himg.2 ?_).1
        rw [hpres, Bool.true_or]
        simp
  · intro ho
    rcases inv.new_spec i a ha with ⟨_, h2⟩ | ⟨k', r, h1, _, _⟩
    · exact h2
    · have h1' : (self.setActorsOrigin fold L)[i]? = some (some k') := h1
      rw [ho] at h1'
      cases h1'

/-- C8 on the roster of the first example and the list [("1", "Alice", image "B")]: the
entry is matched to the protected record, which keeps its image "A". -/
theorem setActors_merge_rule_witness :
    [aliceB][0]? = some aliceB ∧
    (aliceRoster.setActors Char.toLower [aliceB]).m_actors =
      [{ id := "1", name := "Alice", order := 1, preserveImage := true, image := [65] }] ∧
    (aliceRoster.setActorsOrigin Char.toLower [aliceB])[0]? = some (some 0) ∧
    (∀ k : Nat, (aliceRoster.setActorsOrigin Char.toLower [aliceB])[0]? = some (some k) →
      ∃ r x : Actor, aliceRoster.m_actors[k]? = some r ∧
        (aliceRoster.setActors Char.toLower [aliceB]).m_actors[0]? = some x ∧
        x.id = r.id ∧ x.name = aliceB.name ∧ x.role = aliceB.role ∧
        x.thumb = aliceB.thumb ∧
        x.order = (if aliceB.order ≠ 0 then aliceB.order else r.order) ∧
        x.preserveImage = (r.preserveImage || aliceB.preserveImage) ∧
        (aliceB.image ≠ [] ∧ x.preserveImage = false →
          x.image = aliceB.image ∧ x.imageHasChanged = true) ∧
        (¬ (aliceB.image ≠ [] ∧ x.preserveImage = false) →
          x.image = r.image ∧ x.imageHasChanged = r.imageHasChanged) ∧
        (r.preserveImage = true → x.image = r.image)) :=
  ⟨by decide, by decide, by decide,
   (setActors_merge_rule Char.toLower aliceRoster [aliceB] 0 aliceB (by decide)).2.1⟩

/-- C9 as stated fails: on the roster [("5", "Alice"), ("", "Bob")], in which exactly one
record has identifier "5", the list [("5", "Alice"), ("5", "Bob")] merges its second
entry into the record "Bob" by name, so the second record afterwards is not a copy of
the second entry. -/
theorem setActors_same_identifier_counterexample :
    aliceFiveRoster.m_actors.map (fun r => r.id) = ["5", ""] ∧
    aliceBobFive.map (fun r => r.id) = ["5", "5"] ∧
    aliceFiveRoster.setActorsOrigin Char.toLower aliceBobFive = [some 0, some 1] ∧
    (aliceFiveRoster.setActors Char.toLower aliceBobFive).m_actors =
      [{ id := "5", name := "Alice", order := 1 }, { id := "", name := "Bob", order := 2 }] ∧
    (aliceFiveRoster.setActors Char.toLower aliceBobFive).m_actors[1]? ≠ aliceBobFive[1]? := by
  decide

/-- C9, amended: when exactly one record `r` of the roster has the non-empty identifier
of the two incoming entries `a` and `b`, and no other record has a name equal to the name
of `b` ignoring case, the roster after `setActors [a, b]` consists of `r` merged with `a`
followed by a copy of `b`, which is a new record. -/
theorem setActors_same_identifier_twice (fold : Char → Char) (self : Actors) (a b r : Actor)
    (k : Nat) (hr : self.m_actors[k]? = some r) (hne : r.id ≠ "")
    (honly : ∀ (j : Nat) (s : Actor), j ≠ k → self.m_actors[j]? = some s → s.id ≠ r.id)
    (ha : a.id = r.id) (hb : b.id = r.id)
    (hname : ∀ (j : Nat) (s : Actor), j ≠ k → self.m_actors[j]? = some s →
      ciEqual fold s.name b.name = false) :
    (self.setActors fold [a, b]).m_actors = [mergeInto r a, b] ∧
      self.setActorsOrigin fold [a, b] = [some k, none] := by
  have inv := setActorsLoop_inv fold self [a, b]
  have hlen : (setActorsLoop fold self [a, b]).origin.length = 2 := inv.len_o
  have hlenN : (setActorsLoop fold self [a, b]).newActors.length = 2 := inv.len_n
  -- the first entry is matched to `r` by the identifier pass
  have h0 : (setActorsLoop fold self [a, b]).origin[0]? = some (some k) := by
    rw [inv.origin_spec 0 a rfl, List.take_zero]
    have hid : unusedIdPass self.m_actors (usedBy self.m_actors.length []) a = some k := by
      rw [unusedIdPass_eq_some_iff]
      refine ⟨by rw [ha]; exact hne, ⟨r, ?_, hr, ha.symm⟩, ?_⟩
      · exact usedBy_eq_false_iff.mpr ⟨getElem?_lt hr, by simp⟩
      · intro j s hjk _ hs
        rw [ha]
        exact honly j s (by omega) hs
    simp only [findUnused, hid]
  have htake : (setActorsLoop fold self [a, b]).origin.take 1 = [some k] := by
    apply List.ext_getElem?
    intro n
    rw [List.getElem?_take]
    cases n with
    | zero => simpa using h0
    | succ n => simp
  -- the second entry finds `r` used and no other record to match
  have h1 : (setActorsLoop fold self [a, b]).origin[1]? = some none := by
    rw [inv.origin_spec 1 b rfl, htake]
    have hfree : ∀ j : Nat, (usedBy self.m_actors.length [some k])[j]? = some false →
        j ≠ k := by
      intro j hj hjk
      exact (usedBy_eq_false_iff.mp hj).2 (by rw [hjk]; simp)
    have hid : unusedIdPass self.m_actors (usedBy self.m_actors.length [some k]) b = none := by
      rw [unusedIdPass_eq_none_iff]
      refine Or.inr (fun j s hu hs => ?_)
      rw [hb]
      exact honly j s (hfree j hu) hs
    have hnm : unusedNamePass fold self.m_actors (usedBy self.m_actors.length [some k]) b =
        none := by
      rw [unusedNamePass_eq_none_iff]
      exact fun j s hu hs => hname j s (hfree j hu) hs
    simp only [findUnused, hid, hnm]
  have hn0 : (setActorsLoop fold self [a, b]).newActors[0]? = some (mergeInto r a) := by
    rcases inv.new_spec 0 a rfl with ⟨h, _⟩ | ⟨k', r', h, hr', hx⟩
    · rw [h0] at h
      cases h
    · rw [h0] at h
      cases h
      rw [hr] at hr'
      cases hr'
      exact hx
  have hn1 : (setActorsLoop fold self [a, b]).newActors[1]? = some b := by
    rcases inv.new_spec 1 b rfl with ⟨_, hx⟩ | ⟨k', r', h, _, _⟩
    · exact hx
    · rw [h1] at h
      cases h
  constructor
  · show (setActorsLoop fold self [a, b]).newActors = [mergeInto r a, b]
    apply List.ext_getElem?
    intro n
    match n with
    | 0 => simpa using hn0
    | 1 => simpa using hn1
    | n + 2 =>
      rw [List.getElem?_eq_none (by omega)]
      simp
  · show (setActorsLoop fold self [a, b]).origin = [some k, none]
    apply List.ext_getElem?
    intro n
    match n with
    | 0 => simpa using h0
    | 1 => simpa using h1
    | n + 2 =>
      rw [List.getElem?_eq_none (by omega)]
      simp

/-- C9, amended, on the roster [("5", "Alice"), ("", "Bob")] and two entries with
identifier "5" named "alice" and "Carl". -/
theorem setActors_same_identifier_twice_witness :
    aliceFiveRoster.m_actors[0]? = some { id := "5", name := "Alice", order := 1 } ∧
    (aliceFiveRoster.setActors Char.toLower
        [{ id := "5", name := "alice" }, { id := "5", name := "Carl" }]).m_actors =
      [{ id := "5", name := "alice", order := 1 }, { id := "5", name := "Carl" }] ∧
    ((aliceFiveRoster.setActors Char.toLower
        [{ id := "5", name := "alice" }, { id := "5", name := "Carl" }]).m_actors =
      [mergeInto { id := "5", name := "Alice", order := 1 } { id := "5", name := "alice" },
       { id := "5", name := "Carl" }] ∧
     aliceFiveRoster.setActorsOrigin Char.toLower
        [{ id := "5", name := "alice" }, { id := "5", name := "Carl" }] = [some 0, none]) :=
  ⟨by decide, by decide,
   setActors_same_identifier_twice Char.toLower aliceFiveRoster
     { id := "5", name := "alice" } { id := "5", name := "Carl" }
     { id := "5", name := "Alice", order := 1 } 0 (by decide) (by decide)
     (fun j s hj hs => by
       have h1 : aliceFiveRoster.m_actors[1]? = some s := by
         match j, hj, hs with
         | 1, _, hs => exact hs
         | j + 2, _, hs => simp [aliceFiveRoster] at hs
       cases h1
       decide)
     (by decide) (by decide)
     (fun j s hj hs => by
       have h1 : aliceFiveRoster.m_actors[1]? = some s := by
         match j, hj, hs with
         | 1, _, hs => exact hs
         | j + 2, _, hs => simp [aliceFiveRoster] at hs
       cases h1
       decide)⟩

/-- C10: `setActors` with the empty list leaves no record in the roster, `hasActors` is
then false, and every record of the old roster is deleted. -/
theorem setActors_empty (fold : Char → Char) (self : Actors) :
    (self.setActors fold []).m_actors = [] ∧
    (self.setActors fold []).hasActors = false ∧
    self.setActorsDeleted fold [] = List.range self.m_actors.length := by
  refine ⟨rfl, rfl, ?_⟩
  rw [Actors.setActorsDeleted, List.filter_eq_self]
  intro k hk
  have inv := setActorsLoop_inv fold self []
  rw [inv.used_eq, beq_iff_eq, usedBy_eq_false_iff]
  exact ⟨List.mem_range.mp hk, fun h => by cases h⟩

/-! ## The default order of `addActor` -/

theorem wrapInt32_of_range {z : Int} (hlo : -2147483648 ≤ z) (hhi : z ≤ 2147483647) :
    wrapInt32 z = z := by
  unfold wrapInt32
  rw [Int.emod_eq_of_lt (by omega) (by omega)]
  omega

theorem appendOrder_of_getLast {m_actors : List Actor} {actor back : Actor}
    (hb : m_actors.getLast? = some back) (h0 : actor.order = 0)
    (hlo : -2147483648 ≤ back.order + 1) (hhi : back.order + 1 ≤ 2147483647) :
    appendOrder m_actors actor = { actor with order := back.order + 1 } := by
  unfold appendOrder
  rw [hb]
  simp only [h0, if_true, wrapInt32_of_range hlo hhi]

theorem appendOrder_of_ne_zero {m_actors : List Actor} {actor : Actor}
    (h : actor.order ≠ 0) : appendOrder m_actors actor = actor := by
  unfold appendOrder
  cases m_actors.getLast? with
  | none => rfl
  | some back => simp only [h, if_false]

theorem findExisting_eq_none_of_no_match {fold : Char → Char} {m_actors : List Actor}
    {a : Actor}
    (h : ∀ r ∈ m_actors, (a.id = "" ∨ r.id ≠ a.id) ∧ ciEqual fold r.name a.name = false) :
    findExisting fold m_actors a = none := by
  have hid : idPass m_actors a = none := by
    rw [idPass_eq_none_iff]
    by_cases he : a.id = ""
    · exact Or.inl he
    · refine Or.inr (fun r hr => ?_)
      rcases (h r hr).1 with h1 | h1
      · exact absurd h1 he
      · exact h1
  have hnm : namePass fold m_actors a = none :=
    namePass_eq_none_iff.mpr (fun r hr => (h r hr).2)
  simp only [findExisting, hid, hnm]

/-- C11: an incoming actor with order 0 that matches no record of a non-empty roster,
neither by identifier nor by name, is appended as a copy whose order is the order of
the old last record plus one, when that sum is in the range of `int`; the old records
are unchanged.  On the empty roster the actor is appended with order 0. -/
theorem addActor_default_order (fold : Char → Char) (self : Actors) (a : Actor)
    (h0 : a.order = 0) :
    (∀ back : Actor, self.m_actors.getLast? = some back →
      (∀ r ∈ self.m_actors,
        (a.id = "" ∨ r.id ≠ a.id) ∧ ciEqual fold r.name a.name = false) →
      -2147483648 ≤ back.order + 1 → back.order + 1 ≤ 2147483647 →
      (self.addActor fold a).m_actors =
        self.m_actors ++ [{ a with order := back.order + 1 }]) ∧
    (self.m_actors = [] → (self.addActor fold a).m_actors = [a] ∧ a.order = 0) := by
  constructor
  · intro back hb hno hlo hhi
    rw [addActor_of_none (findExisting_eq_none_of_no_match hno),
      appendOrder_of_getLast hb h0 hlo hhi]
  · intro hnil
    have hfe : findExisting fold self.m_actors a = none :=
      findExisting_eq_none_of_no_match (by rw [hnil]; intro r hr; cases hr)
    rw [addActor_of_none hfe, hnil]
    exact ⟨rfl, h0⟩

/-- C11 on the roster holding "Bob" with order 2, and on the empty roster: "Carl" is
appended with order 3, respectively with order 0. -/
theorem addActor_default_order_witness :
    carlPlain.order = 0 ∧
    (bobRoster.addActor Char.toLower carlPlain).m_actors =
      [{ id := "", name := "Bob", order := 2 }, { name := "Carl", order := 3 }] ∧
    (emptyRoster.addActor Char.toLower carlPlain).m_actors = [{ name := "Carl", order := 0 }] ∧
    (bobRoster.addActor Char.toLower carlPlain).m_actors =
      bobRoster.m_actors ++ [{ carlPlain with order := (2 : Int) + 1 }] ∧
    ((emptyRoster.addActor Char.toLower carlPlain).m_actors = [carlPlain] ∧
      carlPlain.order = 0) :=
  ⟨by decide, by decide, by decide,
   (addActor_default_order Char.toLower bobRoster carlPlain (by decide)).1
     { id := "", name := "Bob", order := 2, image := [] } (by decide) (by decide)
     (by decide) (by decide),
   (addActor_default_order Char.toLower emptyRoster carlPlain (by decide)).2 (by decide)⟩

/-! ## Clearing the images -/

/-- C12: `clearImages` keeps the length and the order of the roster; a record whose
`preserveImage` is false has an empty image afterwards, a record whose `preserveImage`
is true keeps its image, and every other field of every record is unchanged. -/
theorem clearImages_clears_unprotected (self : Actors) :
    self.clearImages.m_actors.length = self.m_actors.length ∧
    ∀ (i : Nat) (r : Actor), self.m_actors[i]? = some r →
      ∃ r' : Actor, self.clearImages.m_actors[i]? = some r' ∧
        (r.preserveImage = false → r'.image = []) ∧
        (r.preserveImage = true → r'.image = r.image) ∧
        r'.name = r.name ∧ r'.role = r.role ∧ r'.thumb = r.thumb ∧ r'.id = r.id ∧
        r'.order = r.order ∧ r'.preserveImage = r.preserveImage ∧
        r'.imageHasChanged = r.imageHasChanged := by
  refine ⟨by simp [Actors.clearImages], ?_⟩
  intro i r hr
  have hget : self.clearImages.m_actors[i]? =
      some (if !r.preserveImage then { r with image := [] } else r) := by
    simp only [Actors.clearImages, List.getElem?_map, hr, Option.map_some']
  refine ⟨_, hget, ?_⟩
  cases hp : r.preserveImage <;> simp [hp]

/-- C12 on a roster of one protected and one unprotected record, both with an image. -/
theorem clearImages_clears_unprotected_witness :
    (Actors.mk [{ name := "Alice", image := [65], preserveImage := true },
        { name := "Bob", image := [66], imageHasChanged := true }]).clearImages.m_actors =
      [{ name := "Alice", image := [65], preserveImage := true },
       { name := "Bob", image := [], imageHasChanged := true }] ∧
    ∃ r' : Actor, aliceRoster.clearImages.m_actors[0]? = some r' ∧
      r'.image = [65] ∧ r'.preserveImage = true :=
  ⟨by decide,
   let ⟨r', h, _, h2, _, _, _, _, _, h7, _⟩ :=
     (clearImages_clears_unprotected aliceRoster).2 0
       { id := "1", name := "Alice", order := 1, preserveImage := true, image := [65] }
       (by decide)
   ⟨r', h, h2 rfl, h7⟩⟩

/-! ## Removing a record by its pointer -/

theorem ptrAt_eq_true_iff {m_actors : List (ActorPtr × Actor)} {actor : ActorPtr} {i : Nat} :
    ptrAt m_actors actor i = true ↔ ∃ e, m_actors[i]? = some e ∧ e.1 = actor := by
  unfold ptrAt
  cases h : m_actors[i]? <;> simp

theorem ptrAt_eq_false_iff {m_actors : List (ActorPtr × Actor)} {actor : ActorPtr} {i : Nat} :
    ptrAt m_actors actor i = false ↔ ∀ e, m_actors[i]? = some e → e.1 ≠ actor := by
  unfold ptrAt
  cases h : m_actors[i]? <;> simp

theorem removeActor_of_absent {m_actors : List (ActorPtr × Actor)} {actor : ActorPtr}
    (h : ∀ e ∈ m_actors, e.1 ≠ actor) : removeActor m_actors actor = m_actors := by
  have hnone : firstIndex m_actors.length (ptrAt m_actors actor) = none := by
    rw [firstIndex_eq_none_iff]
    intro j _
    rw [ptrAt_eq_false_iff]
    intro e he
    exact h e (List.getElem?_mem he)
  simp only [removeActor, hnone]

theorem removeActor_of_present {m_actors : List (ActorPtr × Actor)} {actor : ActorPtr}
    (hdistinct : (m_actors.map Prod.fst).Nodup) {p : Nat} {e : ActorPtr × Actor}
    (he : m_actors[p]? = some e) (hp : e.1 = actor) :
    removeActor m_actors actor = m_actors.eraseIdx p := by
  have hlt : p < m_actors.length := (List.getElem?_eq_some.mp he).1
  have hsome : firstIndex m_actors.length (ptrAt m_actors actor) = some p := by
    rw [firstIndex_eq_some_iff]
    refine ⟨hlt, ptrAt_eq_true_iff.mpr ⟨e, he, hp⟩, ?_⟩
    intro j hj
    rw [ptrAt_eq_false_iff]
    intro e' he' heq
    have hne := List.nodup_iff_getElem?_ne_getElem?.mp hdistinct j p hj
      (by rw [List.length_map]; exact hlt)
    apply hne
    rw [List.getElem?_map, List.getElem?_map, he, he', Option.map_some', Option.map_some',
      heq, hp]
  simp only [removeActor, hsome]

/-- C13: on a vector of pairwise distinct pointers, `removeActor` with a pointer that is
not in the vector changes nothing, and `removeActor` with the pointer at position `p`
erases exactly that position: the records before `p` stay where they are, the records
after `p` move up by one in the same order, and the length drops by one, whatever the
field values of the records are. -/
theorem removeActor_by_identity (m_actors : List (ActorPtr × Actor)) (actor : ActorPtr)
    (hdistinct : (m_actors.map Prod.fst).Nodup) :
    ((∀ e ∈ m_actors, e.1 ≠ actor) → removeActor m_actors actor = m_actors) ∧
    (∀ (p : Nat) (e : ActorPtr × Actor), m_actors[p]? = some e → e.1 = actor →
      removeActor m_actors actor = m_actors.eraseIdx p ∧
      (removeActor m_actors actor).length + 1 = m_actors.length ∧
      (∀ j : Nat, j < p → (removeActor m_actors actor)[j]? = m_actors[j]?) ∧
      (∀ j : Nat, p ≤ j → (removeActor m_actors actor)[j]? = m_actors[j + 1]?)) := by
  refine ⟨removeActor_of_absent, ?_⟩
  intro p e he hp
  have hlt : p < m_actors.length := (List.getElem?_eq_some.mp he).1
  rw [removeActor_of_present hdistinct he hp]
  refine ⟨rfl, ?_, ?_, ?_⟩
  · rw [List.length_eraseIdx_of_lt hlt]
    omega
  · intro j hj
    exact List.getElem?_eraseIdx_of_lt _ _ _ hj
  · intro j hj
    exact List.getElem?_eraseIdx_of_ge _ _ _ hj

/-- C13 on three pointers whose first and last records have equal field values:
removing the last pointer keeps the first record, and removing a pointer that is not in
the vector changes nothing. -/
theorem removeActor_by_identity_witness :
    (twinPtrs.map Prod.fst).Nodup ∧
    removeActor twinPtrs 300 =
      [(100, { name := "Bob", order := 1 }), (200, { name := "Alice", order := 2 })] ∧
    removeActor twinPtrs 400 = twinPtrs ∧
    (removeActor twinPtrs 300 = twinPtrs.eraseIdx 2 ∧
      (removeActor twinPtrs 300).length + 1 = twinPtrs.length ∧
      (∀ j : Nat, j < 2 → (removeActor twinPtrs 300)[j]? = twinPtrs[j]?) ∧
      (∀ j : Nat, 2 ≤ j → (removeActor twinPtrs 300)[j]? = twinPtrs[j + 1]?)) :=
  ⟨by decide, by decide, by decide,
   (removeActor_by_identity twinPtrs 300 (by decide)).2 2 (300, { name := "Bob", order := 1 })
     (by decide) (by decide)⟩

/-! ## The matching of `setActors` -/

theorem usedBy_take_eq_false_iff {R : List Actor} {origin : List (Option Nat)} {i j : Nat}
    {s : Actor} (hs : R[j]? = some s) :
    (usedBy R.length (origin.take i))[j]? = some false ↔ FreeBefore origin i j := by
  rw [usedBy_eq_false_iff]
  constructor
  · rintro ⟨_, h⟩ i' hi' ho
    exact h (mem_take_iff.mpr ⟨i', hi', ho⟩)
  · intro h
    refine ⟨getElem?_lt hs, fun hmem => ?_⟩
    obtain ⟨i', hi', ho⟩ := mem_take_iff.mp hmem
    exact h i' hi' ho

theorem findUnused_eq_some_iff {fold : Char → Char} {M : List Actor} {used : List Bool}
    {a : Actor} {k : Nat} :
    findUnused fold M used a = some k ↔
      unusedIdPass M used a = some k ∨
        (unusedIdPass M used a = none ∧ unusedNamePass fold M used a = some k) := by
  unfold findUnused
  cases hi : unusedIdPass M used a with
  | some i => simp
  | none => simp

/-- The search of `setActors` on the flags left by the earlier entries, in terms of the
records that are still free. -/
theorem findUnused_take_eq_some_iff {fold : Char → Char} {R : List Actor}
    {origin : List (Option Nat)} {i k : Nat} {a : Actor} :
    findUnused fold R (usedBy R.length (origin.take i)) a = some k ↔
      ∃ r : Actor, R[k]? = some r ∧ FreeBefore origin i k ∧
        ((a.id ≠ "" ∧ r.id = a.id ∧
            ∀ (j : Nat) (s : Actor), j < k → R[j]? = some s → FreeBefore origin i j →
              s.id ≠ a.id) ∨
          ((a.id = "" ∨
              ∀ (j : Nat) (s : Actor), R[j]? = some s → FreeBefore origin i j →
                s.id ≠ a.id) ∧
            ciEqual fold r.name a.name = true ∧
            ∀ (j : Nat) (s : Actor), j < k → R[j]? = some s → FreeBefore origin i j →
              ciEqual fold s.name a.name = false)) := by
  rw [findUnused_eq_some_iff, unusedIdPass_eq_some_iff, unusedIdPass_eq_none_iff,
    unusedNamePass_eq_some_iff]
  constructor
  · rintro (⟨hne, ⟨r, hu, hr, hid⟩, hfirst⟩ | ⟨hnone, ⟨r, hu, hr, hc⟩, hfirst⟩)
    · refine ⟨r, hr, (usedBy_take_eq_false_iff hr).mp hu, Or.inl ⟨hne, hid, ?_⟩⟩
      intro j s hjk hs hfree
      exact hfirst j s hjk ((usedBy_take_eq_false_iff hs).mpr hfree) hs
    · refine ⟨r, hr, (usedBy_take_eq_false_iff hr).mp hu, Or.inr ⟨?_, hc, ?_⟩⟩
      · rcases hnone with h | h
        · exact Or.inl h
        · exact Or.inr (fun j s hs hfree =>
            h j s ((usedBy_take_eq_false_iff hs).mpr hfree) hs)
      · intro j s hjk hs hfree
        exact hfirst j s hjk ((usedBy_take_eq_false_iff hs).mpr hfree) hs
  · rintro ⟨r, hr, hfree, (⟨hne, hid, hfirst⟩ | ⟨hnone, hc, hfirst⟩)⟩
    · refine Or.inl ⟨hne, ⟨r, (usedBy_take_eq_false_iff hr).mpr hfree, hr, hid⟩, ?_⟩
      intro j s hjk hu hs
      exact hfirst j s hjk hs ((usedBy_take_eq_false_iff hs).mp hu)
    · refine Or.inr ⟨?_, ⟨r, (usedBy_take_eq_false_iff hr).mpr hfree, hr, hc⟩, ?_⟩
      · rcases hnone with h | h
        · exact Or.inl h
        · exact Or.inr (fun j s hu hs => h j s hs ((usedBy_take_eq_false_iff hs).mp hu))
      · intro j s hjk hu hs
        exact hfirst j s hjk hs ((usedBy_take_eq_false_iff hs).mp hu)

/-- C14: no old record is matched by two entries of the incoming list, and the entry at
position `i` is matched to the old record at position `k` exactly when that record is
the first not-yet-matched record with the entry's non-empty identifier, or, when the
identifier is empty or no not-yet-matched record carries it, the first not-yet-matched
record whose name equals the entry's name ignoring case. -/
theorem setActors_matching_injective (fold : Char → Char) (self : Actors) (L : List Actor) :
    (∀ i j k : Nat, (self.setActorsOrigin fold L)[i]? = some (some k) →
      (self.setActorsOrigin fold L)[j]? = some (some k) → i = j) ∧
    (∀ (i k : Nat) (a : Actor), L[i]? = some a →
      ((self.setActorsOrigin fold L)[i]? = some (some k) ↔
        ∃ r : Actor, self.m_actors[k]? = some r ∧
          FreeBefore (self.setActorsOrigin fold L) i k ∧
          ((a.id ≠ "" ∧ r.id = a.id ∧
              ∀ (j : Nat) (s : Actor), j < k → self.m_actors[j]? = some s →
                FreeBefore (self.setActorsOrigin fold L) i j → s.id ≠ a.id) ∨
            ((a.id = "" ∨
                ∀ (j : Nat) (s : Actor), self.m_actors[j]? = some s →
                  FreeBefore (self.setActorsOrigin fold L) i j → s.id ≠ a.id) ∧
              ciEqual fold r.name a.name = true ∧
              ∀ (j : Nat) (s : Actor), j < k → self.m_actors[j]? = some s →
                FreeBefore (self.setActorsOrigin fold L) i j →
                ciEqual fold s.name a.name = false)))) := by
  have inv := setActorsLoop_inv fold self L
  refine ⟨fun i j k hi hj => inv.origin_injective hi hj, ?_⟩
  intro i k a ha
  rw [← findUnused_take_eq_some_iff]
  have hspec : (self.setActorsOrigin fold L)[i]? =
      some (findUnused fold self.m_actors
        (usedBy self.m_actors.length ((self.setActorsOrigin fold L).take i)) a) :=
    inv.origin_spec i a ha
  rw [hspec, Option.some_inj]

/-- C14 on the roster [("5", "Alice"), ("", "Bob")] and the list
[("5", "Alice"), ("5", "Bob")]: the two entries are matched to different records, the
second one by name because the record with its identifier is already matched. -/
theorem setActors_matching_injective_witness :
    aliceFiveRoster.setActorsOrigin Char.toLower aliceBobFive = [some 0, some 1] ∧
    (∀ i j k : Nat,
      (aliceFiveRoster.setActorsOrigin Char.toLower aliceBobFive)[i]? = some (some k) →
      (aliceFiveRoster.setActorsOrigin Char.toLower aliceBobFive)[j]? = some (some k) →
      i = j) :=
  ⟨by decide, (setActors_matching_injective Char.toLower aliceFiveRoster aliceBobFive).1⟩

/-! ## The order of a matched record -/

/-- C15: when an incoming actor with order 0 matches the record `r` at position `idx`,
the roster is non-empty, and with `back` its last record and `back.order + 1` in the
range of `int`, the order of the matched record after `addActor` is `back.order + 1`
when that value is non-zero and the old order of `r` when it is zero. -/
theorem addActor_matched_order (fold : Char → Char) (self : Actors) (a : Actor) (idx : Nat)
    (h0 : a.order = 0) (hmatch : findExisting fold self.m_actors a = some idx) :
    ∃ back r r' : Actor, self.m_actors.getLast? = some back ∧
      self.m_actors[idx]? = some r ∧
      (self.addActor fold a).m_actors[idx]? = some r' ∧
      (-2147483648 ≤ back.order + 1 → back.order + 1 ≤ 2147483647 →
        (back.order + 1 ≠ 0 → r'.order = back.order + 1) ∧
        (back.order + 1 = 0 → r'.order = r.order)) := by
  obtain ⟨r, hr⟩ := findExisting_lt hmatch
  have hlt : idx < self.m_actors.length := getElem?_lt hr
  have hne : self.m_actors ≠ [] := by
    intro h
    rw [h] at hlt
    exact Nat.not_lt_zero _ hlt
  have hb : self.m_actors.getLast? = some (self.m_actors.getLast hne) :=
    List.getLast?_eq_getLast _ hne
  refine ⟨self.m_actors.getLast hne, r, mergeInto r (appendOrder self.m_actors a), hb, hr,
    ?_, ?_⟩
  · rw [addActor_of_some hmatch hr, List.getElem?_set_self hlt]
  · intro hlo hhi
    rw [appendOrder_of_getLast hb h0 hlo hhi, (mergeInto_fields r _).2.2.2.2.1]
    constructor
    · intro hnz
      simp only [ne_eq, hnz, not_false_eq_true, if_true]
    · intro hz
      simp only [ne_eq, hz, not_true_eq_false, if_false]

/-- C15, the example of the specification: adding "bob" with order 0 to the roster
holding "Bob" with order 2 leaves the record with order 3. -/
theorem addActor_matched_order_witness :
    bobX.order = 0 ∧ findExisting Char.toLower bobRoster.m_actors bobX = some 0 ∧
    (bobRoster.addActor Char.toLower bobX).m_actors.map (fun r => r.order) = [3] ∧
    ∃ back r r' : Actor, bobRoster.m_actors.getLast? = some back ∧
      bobRoster.m_actors[0]? = some r ∧
      (bobRoster.addActor Char.toLower bobX).m_actors[0]? = some r' ∧
      (-2147483648 ≤ back.order + 1 → back.order + 1 ≤ 2147483647 →
        (back.order + 1 ≠ 0 → r'.order = back.order + 1) ∧
        (back.order + 1 = 0 → r'.order = r.order)) :=
  ⟨by decide, by decide, by decide,
   addActor_matched_order Char.toLower bobRoster bobX 0 (by decide) (by decide)⟩

/-! ## Entries of the incoming list that match no old record -/

theorem findUnused_eq_none_of_no_match {fold : Char → Char} {M : List Actor}
    {used : List Bool} {a : Actor}
    (h : ∀ r ∈ M, (a.id = "" ∨ r.id ≠ a.id) ∧ ciEqual fold r.name a.name = false) :
    findUnused fold M used a = none := by
  have hid : unusedIdPass M used a = none := by
    rw [unusedIdPass_eq_none_iff]
    by_cases he : a.id = ""
    · exact Or.inl he
    · refine Or.inr (fun j s _ hs => ?_)
      rcases (h s (List.getElem?_mem hs)).1 with h1 | h1
      · exact absurd h1 he
      · exact h1
  have hnm : unusedNamePass fold M used a = none :=
    unusedNamePass_eq_none_iff.mpr (fun j s _ hs => (h s (List.getElem?_mem hs)).2)
  simp only [findUnused, hid, hnm]

/-- An entry that matches no old record at all becomes a new record, a copy of it. -/
theorem LoopInv.copy_of_no_match {fold : Char → Char} {R L : List Actor} {st : SetState}
    (inv : LoopInv fold R L st) {i : Nat} {a : Actor} (ha : L[i]? = some a)
    (h : ∀ r ∈ R, (a.id = "" ∨ r.id ≠ a.id) ∧ ciEqual fold r.name a.name = false) :
    st.origin[i]? = some none ∧ st.newActors[i]? = some a := by
  have ho : st.origin[i]? = some none := by
    rw [inv.origin_spec i a ha, findUnused_eq_none_of_no_match h]
  refine ⟨ho, ?_⟩
  rcases inv.new_spec i a ha with ⟨_, hx⟩ | ⟨k, r, hk, _, _⟩
  · exact hx
  · rw [ho] at hk
    cases hk

/-- C16: two entries of the incoming list whose names are equal ignoring case and that
match no record of the old roster, neither by identifier nor by name, both become new
records, copies of the two entries at the positions the entries have in the list. -/
theorem setActors_keeps_incoming_duplicates (fold : Char → Char) (self : Actors)
    (L : List Actor) (i j : Nat) (a b : Actor) (_hij : i ≠ j) (ha : L[i]? = some a)
    (hb : L[j]? = some b) (_hab : ciEqual fold a.name b.name = true)
    (hna : ∀ r ∈ self.m_actors,
      (a.id = "" ∨ r.id ≠ a.id) ∧ ciEqual fold r.name a.name = false)
    (hnb : ∀ r ∈ self.m_actors,
      (b.id = "" ∨ r.id ≠ b.id) ∧ ciEqual fold r.name b.name = false) :
    (self.setActors fold L).m_actors[i]? = some a ∧
    (self.setActors fold L).m_actors[j]? = some b ∧
    (self.setActorsOrigin fold L)[i]? = some none ∧
    (self.setActorsOrigin fold L)[j]? = some none := by
  have inv := setActorsLoop_inv fold self L
  obtain ⟨hoa, hxa⟩ := inv.copy_of_no_match ha hna
  obtain ⟨hob, hxb⟩ := inv.copy_of_no_match hb hnb
  exact ⟨hxa, hxb, hoa, hob⟩

/-- C16 on the roster holding "Bob" and the list ["Carl", "carl"]: both entries become
new records. -/
theorem setActors_keeps_incoming_duplicates_witness :
    (bobRoster.setActors Char.toLower carlTwice).m_actors =
      [{ name := "Carl", role := "Hero" }, { name := "carl", role := "Villain" }] ∧
    ((bobRoster.setActors Char.toLower carlTwice).m_actors[0]? =
        some { name := "Carl", role := "Hero" } ∧
      (bobRoster.setActors Char.toLower carlTwice).m_actors[1]? =
        some { name := "carl", role := "Villain" } ∧
      (bobRoster.setActorsOrigin Char.toLower carlTwice)[0]? = some none ∧
      (bobRoster.setActorsOrigin Char.toLower carlTwice)[1]? = some none) :=
  ⟨by decide,
   setActors_keeps_incoming_duplicates Char.toLower bobRoster carlTwice 0 1
     { name := "Carl", role := "Hero" } { name := "carl", role := "Villain" }
     (by decide) (by decide) (by decide) (by decide) (by decide) (by decide)⟩

/-! ## `addActor` and `setActors` with a single entry -/

/-- Before any record is used, the search of `setActors` is the search of `addActor`. -/
theorem findUnused_nil_eq_findExisting (fold : Char → Char) (R : List Actor) (a : Actor) :
    findUnused fold R (usedBy R.length []) a = findExisting fold R a := by
  have hfree : ∀ j, j < R.length → (usedBy R.length [])[j]? = some false := by
    intro j hj
    exact usedBy_eq_false_iff.mpr ⟨hj, by simp⟩
  have hid : ∀ j, j < R.length →
      unusedIdAt R (usedBy R.length []) a.id j = idAt R a.id j := by
    intro j hj
    unfold unusedIdAt idAt
    rw [hfree j hj]
    cases R[j]? <;> simp
  have hname : ∀ j, j < R.length →
      unusedNameAt fold R (usedBy R.length []) a.name j = nameAt fold R a.name j := by
    intro j hj
    unfold unusedNameAt nameAt
    rw [hfree j hj]
    cases R[j]? <;> simp
  unfold findUnused unusedIdPass unusedNamePass findExisting idPass namePass
  rw [firstIndex_congr hid, firstIndex_congr hname]

/-- C17: for an incoming actor with non-zero order, `setActors` with the one-element
list makes the same match as `addActor`, and the single record of the roster
afterwards equals the record that `addActor` updates, or appends as the last record
when nothing matches. -/
theorem setActors_singleton_agrees (fold : Char → Char) (self : Actors) (a : Actor)
    (hord : a.order ≠ 0) :
    self.setActorsOrigin fold [a] = [findExisting fold self.m_actors a] ∧
    ∃ x : Actor, (self.setActors fold [a]).m_actors = [x] ∧
      (self.addActor fold a).m_actors[
        (findExisting fold self.m_actors a).getD self.m_actors.length]? = some x := by
  have inv := setActorsLoop_inv fold self [a]
  have hlenO : (setActorsLoop fold self [a]).origin.length = 1 := inv.len_o
  have hlenN : (setActorsLoop fold self [a]).newActors.length = 1 := inv.len_n
  have ho : (setActorsLoop fold self [a]).origin[0]? =
      some (findExisting fold self.m_actors a) := by
    rw [inv.origin_spec 0 a rfl, List.take_zero, findUnused_nil_eq_findExisting]
  have hO : self.setActorsOrigin fold [a] = [findExisting fold self.m_actors a] := by
    show (setActorsLoop fold self [a]).origin = [findExisting fold self.m_actors a]
    apply List.ext_getElem?
    intro n
    match n with
    | 0 => simpa using ho
    | n + 1 =>
      rw [List.getElem?_eq_none (by omega)]
      simp
  have hsingle : ∀ x : Actor, (setActorsLoop fold self [a]).newActors[0]? = some x →
      (self.setActors fold [a]).m_actors = [x] := by
    intro x hx
    show (setActorsLoop fold self [a]).newActors = [x]
    apply List.ext_getElem?
    intro n
    match n with
    | 0 => simpa using hx
    | n + 1 =>
      rw [List.getElem?_eq_none (by omega)]
      simp
  refine ⟨hO, ?_⟩
  rcases inv.new_spec 0 a rfl with ⟨h1, hx⟩ | ⟨k, r, h1, hr, hx⟩
  · rw [ho] at h1
    have hfe : findExisting fold self.m_actors a = none := (Option.some.inj h1)
    refine ⟨a, hsingle a hx, ?_⟩
    rw [addActor_of_none hfe, hfe, Option.getD_none, appendOrder_of_ne_zero hord,
      List.getElem?_concat_length]
  · rw [ho] at h1
    have hfe : findExisting fold self.m_actors a = some k := (Option.some.inj h1)
    refine ⟨mergeInto r a, hsingle _ hx, ?_⟩
    rw [addActor_of_some hfe hr, hfe, Option.getD_some, appendOrder_of_ne_zero hord,
      List.getElem?_set_self (getElem?_lt hr)]

/-- C17 on the roster holding "Bob" and the incoming actor "bob" with order 7 and
image "X": both operations produce the same merged record. -/
theorem setActors_singleton_agrees_witness :
    bobOrdered.order ≠ 0 ∧
    (bobRoster.setActors Char.toLower [bobOrdered]).m_actors =
      [{ name := "bob", order := 7, image := [88], imageHasChanged := true }] ∧
    (bobRoster.addActor Char.toLower bobOrdered).m_actors =
      [{ name := "bob", order := 7, image := [88], imageHasChanged := true }] ∧
    (bobRoster.setActorsOrigin Char.toLower [bobOrdered] =
        [findExisting Char.toLower bobRoster.m_actors bobOrdered] ∧
      ∃ x : Actor, (bobRoster.setActors Char.toLower [bobOrdered]).m_actors = [x] ∧
        (bobRoster.addActor Char.toLower bobOrdered).m_actors[
          (findExisting Char.toLower bobRoster.m_actors bobOrdered).getD
            bobRoster.m_actors.length]? = some x) :=
  ⟨by decide, by decide, by decide,
   setActors_singleton_agrees Char.toLower bobRoster bobOrdered (by decide)⟩

/-! ## Identifiers and lengths under `addActor` -/

/-- The length of the roster after `addActor`: unchanged on a match, one more otherwise. -/
theorem addActor_length (fold : Char → Char) (self : Actors) (a : Actor) :
    (self.addActor fold a).m_actors.length =
      match findExisting fold self.m_actors a with
      | some _ => self.m_actors.length
      | none => self.m_actors.length + 1 := by
  cases hfe : findExisting fold self.m_actors a with
  | none =>
    rw [addActor_of_none hfe]
    simp
  | some idx =>
    obtain ⟨r, hr⟩ := findExisting_lt hfe
    rw [addActor_of_some hfe hr]
    simp

/-- Every record keeps its position and its identifier under `addActor`. -/
theorem addActor_id_kept (fold : Char → Char) (self : Actors) (a : Actor) (i : Nat)
    (r : Actor) (hr : self.m_actors[i]? = some r) :
    ∃ r' : Actor, (self.addActor fold a).m_actors[i]? = some r' ∧ r'.id = r.id := by
  have hlt : i < self.m_actors.length := getElem?_lt hr
  cases hfe : findExisting fold self.m_actors a with
  | none =>
    exact ⟨r, by rw [addActor_of_none hfe, List.getElem?_append_left hlt, hr], rfl⟩
  | some idx =>
    obtain ⟨e, he⟩ := findExisting_lt hfe
    rw [addActor_of_some hfe he]
    by_cases hi : idx = i
    · subst hi
      rw [hr] at he
      cases he
      exact ⟨_, List.getElem?_set_self hlt, (mergeInto_fields r _).2.2.2.1⟩
    · exact ⟨r, by rw [List.getElem?_set_ne hi, hr], rfl⟩

/-- After `addActor` every record is an old record with the same identifier at the same
position, or the appended record, which exists only when nothing matched. -/
theorem addActor_id_source (fold : Char → Char) (self : Actors) (a : Actor) (i : Nat)
    (x : Actor) (hx : (self.addActor fold a).m_actors[i]? = some x) :
    (∃ r : Actor, self.m_actors[i]? = some r ∧ r.id = x.id) ∨
      (i = self.m_actors.length ∧ x.id = a.id ∧ findExisting fold self.m_actors a = none) := by
  cases hfe : findExisting fold self.m_actors a with
  | none =>
    rw [addActor_of_none hfe] at hx
    rcases getElem?_snoc_cases hx with ⟨_, h⟩ | ⟨h1, h2⟩
    · exact Or.inl ⟨x, h, rfl⟩
    · exact Or.inr ⟨h1, by rw [h2]; exact (appendOrder_fields _ _).2.2.2.1, rfl⟩
  | some idx =>
    obtain ⟨e, he⟩ := findExisting_lt hfe
    rw [addActor_of_some hfe he] at hx
    rcases getElem?_set_cases hx with ⟨h1, h2⟩ | ⟨_, h2⟩
    · exact Or.inl ⟨e, by rw [h1]; exact he, by rw [h2, (mergeInto_fields e _).2.2.2.1]⟩
    · exact Or.inl ⟨x, h2, rfl⟩

theorem findExisting_none_id {fold : Char → Char} {m_actors : List Actor} {a : Actor}
    (h : findExisting fold m_actors a = none) :
    a.id = "" ∨ ∀ r ∈ m_actors, r.id ≠ a.id := by
  apply idPass_eq_none_iff.mp
  cases hip : idPass m_actors a with
  | none => rfl
  | some k => simp [findExisting, hip] at h

/-- C18: `addActor` keeps the identifiers of a roster unique, and every record that was
in the roster before the call is at the same position afterwards with the same
identifier, whatever the identifier of the incoming actor is. -/
theorem addActor_keeps_identifiers (fold : Char → Char) (self : Actors) (a : Actor)
    (hids : UniqueIds self.m_actors) :
    UniqueIds (self.addActor fold a).m_actors ∧
    ∀ (i : Nat) (r : Actor), self.m_actors[i]? = some r →
      ∃ r' : Actor, (self.addActor fold a).m_actors[i]? = some r' ∧ r'.id = r.id := by
  refine ⟨?_, addActor_id_kept fold self a⟩
  rw [uniqueIds_iff]
  intro i j x y hij hx hy hne heq
  rcases addActor_id_source fold self a i x hx with ⟨r, hr, hrx⟩ | ⟨hi, hxa, hfe⟩
  · rcases addActor_id_source fold self a j y hy with ⟨s, hs, hsy⟩ | ⟨_, hya, hfe⟩
    · exact uniqueIds_iff.mp hids i j r s hij hr hs (by rw [hrx]; exact hne)
        (by rw [hrx, hsy]; exact heq)
    · rcases findExisting_none_id hfe with h | h
      · exact hne (by rw [heq, hya, h])
      · exact h r (List.getElem?_mem hr) (by rw [hrx, heq, hya])
  · rcases addActor_id_source fold self a j y hy with ⟨s, hs, hsy⟩ | ⟨hj, _, _⟩
    · rcases findExisting_none_id hfe with h | h
      · exact hne (by rw [hxa, h])
      · exact h s (List.getElem?_mem hs) (by rw [hsy, ← heq, hxa])
    · exact hij (hi.trans hj.symm)

/-- C18 on the roster [("1", "Alice"), ("2", "Bob")] and the incoming actor ("7", "bob"),
which is merged by name into the record with identifier "2". -/
theorem addActor_keeps_identifiers_witness :
    UniqueIds aliceBobRoster.m_actors ∧
    (aliceBobRoster.addActor Char.toLower bobSeven).m_actors.map (fun r => r.id) =
      ["1", "2"] ∧
    (UniqueIds (aliceBobRoster.addActor Char.toLower bobSeven).m_actors ∧
      ∀ (i : Nat) (r : Actor), aliceBobRoster.m_actors[i]? = some r →
        ∃ r' : Actor, (aliceBobRoster.addActor Char.toLower bobSeven).m_actors[i]? = some r' ∧
          r'.id = r.id) :=
  ⟨by decide, by decide,
   addActor_keeps_identifiers Char.toLower aliceBobRoster bobSeven (by decide)⟩

/-- After `addActor` some record has the name of the incoming actor. -/
theorem addActor_has_name (fold : Char → Char) (self : Actors) (a : Actor) :
    ∃ r ∈ (self.addActor fold a).m_actors, r.name = a.name := by
  cases hfe : findExisting fold self.m_actors a with
  | none =>
    rw [addActor_of_none hfe]
    exact ⟨appendOrder self.m_actors a, by simp, (appendOrder_fields _ _).1⟩
  | some idx =>
    obtain ⟨e, he⟩ := findExisting_lt hfe
    rw [addActor_of_some hfe he]
    refine ⟨mergeInto e (appendOrder self.m_actors a), ?_, ?_⟩
    · exact List.getElem?_mem (List.getElem?_set_self (getElem?_lt he))
    · rw [(mergeInto_fields _ _).1, (appendOrder_fields _ _).1]

/-- A roster that holds a record with the incoming name always yields a match. -/
theorem findExisting_isSome_of_name {fold : Char → Char} {m_actors : List Actor} {a : Actor}
    (h : ∃ r ∈ m_actors, r.name = a.name) :
    ∃ idx : Nat, findExisting fold m_actors a = some idx := by
  cases hfe : findExisting fold m_actors a with
  | some idx => exact ⟨idx, rfl⟩
  | none =>
    exfalso
    have hnp : namePass fold m_actors a = none := by
      cases hip : idPass m_actors a with
      | none => simpa [findExisting, hip] using hfe
      | some k => simp [findExisting, hip] at hfe
    obtain ⟨r, hr, hn⟩ := h
    have := namePass_eq_none_iff.mp hnp r hr
    rw [hn, ciEqual_refl] at this
    cases this

/-- C19: adding the same actor twice gives a roster as long as adding it once, because
after the first call some record has the name of the actor and the second call merges;
one call keeps the length or raises it by one. -/
theorem addActor_twice_length (fold : Char → Char) (self : Actors) (a : Actor) :
    ((self.addActor fold a).addActor fold a).m_actors.length =
      (self.addActor fold a).m_actors.length ∧
    (∃ r ∈ (self.addActor fold a).m_actors, ciEqual fold r.name a.name = true) ∧
    (∃ idx : Nat, findExisting fold (self.addActor fold a).m_actors a = some idx) ∧
    ((self.addActor fold a).m_actors.length = self.m_actors.length ∨
      (self.addActor fold a).m_actors.length = self.m_actors.length + 1) := by
  obtain ⟨r, hr, hn⟩ := addActor_has_name fold self a
  obtain ⟨idx, hidx⟩ :=
    @findExisting_isSome_of_name fold _ a (addActor_has_name fold self a)
  refine ⟨?_, ⟨r, hr, by rw [hn]; exact ciEqual_refl fold _⟩, ⟨idx, hidx⟩, ?_⟩
  · rw [addActor_length fold (self.addActor fold a) a, hidx]
  · rw [addActor_length fold self a]
    cases findExisting fold self.m_actors a with
    | none => exact Or.inr rfl
    | some k => exact Or.inl rfl

end MediaElch
